import Mathlib

/-!
Shallow embedding of the itinerary-to-map reconciliation engine of
`src/shared/MapView.jsx` (name normalizer and matcher, day assigner, geocode
resolver, boundary/range filter, route composer, render/snapshot manager),
with theorems settling the specification claims about it.

Modelling conventions:
* JS strings are `String` (lists of characters); `String.prototype.length`
  counts UTF-16 code units, which for the BMP characters appearing in this
  program equals the character count used here.
* JS numbers are `ℚ` wherever the program does exact arithmetic and
  comparisons (coordinates, radii, stroke attributes); `NaN`/missing numeric
  fields are `Option ℚ = none`.  The transcendental haversine distance is
  modelled over `ℝ`.
* JS `Map` is an association list in insertion order; `Map.set` overwrites an
  existing binding in place, `Map.has`/`Map.get` look keys up.
-/

namespace MapViewSpec

/-- JS line terminators: a regex `.` does not match these
(LF, CR, LINE SEPARATOR, PARAGRAPH SEPARATOR). -/
def isLineTerminator (c : Char) : Bool :=
  c = '\n' || c = '\r' || c.toNat = 0x2028 || c.toNat = 0x2029

/-- The JS whitespace class `\s` (also the character set removed by
`String.prototype.trim`). -/
def isJsWhitespace (c : Char) : Bool :=
  c = ' ' || c = '\t' || c = '\n' || c.toNat = 0xB || c.toNat = 0xC || c = '\r' ||
  c.toNat = 0xA0 || c.toNat = 0x1680 || (0x2000 ≤ c.toNat && c.toNat ≤ 0x200A) ||
  c.toNat = 0x2028 || c.toNat = 0x2029 || c.toNat = 0x202F || c.toNat = 0x205F ||
  c.toNat = 0x3000 || c.toNat = 0xFEFF

/-- Helper for the lazy bracket regex `\(.*?\)`: starting just after an open
bracket, return the remainder after the first `close` character, provided no
line terminator intervenes (a regex `.` cannot match line terminators). -/
def afterClose (close : Char) : List Char → Option (List Char)
  | [] => none
  | c :: cs =>
    if c = close then some cs
    else if isLineTerminator c then none
    else afterClose close cs

/-- Fuel-indexed scanner for the global replacement
`.replace(/\(.*?\)|（.*?）/g, '')` in `normalizeName`.  One unit of fuel is
consumed per scanned or removed segment, so `fuel = l.length` always
suffices; on fuel exhaustion the rest is returned unchanged. -/
def stripBracketedGo : ℕ → List Char → List Char
  | 0, l => l
  | _, [] => []
  | fuel + 1, c :: cs =>
    if c = '(' then
      match afterClose ')' cs with
      | some rest => stripBracketedGo fuel rest
      | none => c :: stripBracketedGo fuel cs
    else if c = '（' then
      match afterClose '）' cs with
      | some rest => stripBracketedGo fuel rest
      | none => c :: stripBracketedGo fuel cs
    else c :: stripBracketedGo fuel cs

/-- Global removal of lazily-bracketed segments, `normalizeName` line
`.replace(/\(.*?\)|（.*?）/g, '')`. -/
def stripBracketed (l : List Char) : List Char :=
  stripBracketedGo l.length l

/-- The punctuation characters of `normalizeName`'s
`.replace(/[·\.\-_,，。；;：:！!？?/\\\s]+/g, '')`. -/
def punctChars : List Char :=
  ['·', '.', '-', '_', ',', '，', '。', '；', ';', '：', ':', '！', '!',
   '？', '?', '/', '\\']

def isPunctOrSpace (c : Char) : Bool :=
  punctChars.contains c || isJsWhitespace c

/-- Removing every punctuation-class run is removing every such character. -/
def removePunct (l : List Char) : List Char :=
  l.filter (fun c => !isPunctOrSpace c)

/-- `String.prototype.trim` on a character list. -/
def jsTrimList (l : List Char) : List Char :=
  ((l.dropWhile isJsWhitespace).reverse.dropWhile isJsWhitespace).reverse

/-- `String.prototype.trim`. -/
def jsTrim (s : String) : String :=
  String.mk (jsTrimList s.data)

/-- Alternatives of `normalizeName`'s anchored leading-keyword regex
`^(前往|打卡|游览|参观|途经|集合于|抵达|到达|出发至|出发到|入住于|入住|退房后前往)\s*`,
in alternation order. -/
def leadingKeywords : List (List Char) :=
  ["前往", "打卡", "游览", "参观", "途经", "集合于", "抵达", "到达",
   "出发至", "出发到", "入住于", "入住", "退房后前往"].map String.data

/-- Single anchored replacement of the leading keyword: regex alternation
takes the first listed alternative that matches at the start, then consumes
the following whitespace run. -/
def stripLeadingKeyword (l : List Char) : List Char :=
  match leadingKeywords.find? (fun w => w.isPrefixOf l) with
  | some w => (l.drop w.length).dropWhile isJsWhitespace
  | none => l

/-- Alternatives of `normalizeName`'s trailing-keyword regex
`\s*(集合|结束|返回|入住|用餐|自由活动|休息|酒店|青旅|旅馆|宾馆)$`. -/
def trailingKeywords : List (List Char) :=
  ["集合", "结束", "返回", "入住", "用餐", "自由活动", "休息", "酒店",
   "青旅", "旅馆", "宾馆"].map String.data

/-- Single replacement of `\s*(trailing keyword)$`: the leftmost match starts
at the earliest index whose whole tail is a whitespace run followed by one of
the keywords (keywords contain no whitespace); everything from that index on
is deleted. -/
def stripTrailingKeyword : List Char → List Char
  | [] => []
  | c :: cs =>
    if trailingKeywords.contains ((c :: cs).dropWhile isJsWhitespace) then []
    else c :: stripTrailingKeyword cs

/-- The generic suffix list of `normalizeName` (`suffixes` in the source),
each removed globally by `strip`. -/
def genericSuffixWords : List (List Char) :=
  ["景点", "景区", "公园", "博物馆", "纪念馆", "寺", "庙", "塔", "广场",
   "大街", "路", "酒店", "餐厅", "饭店", "店", "馆", "院", "楼", "中心"].map String.data

/-- Fuel-indexed scanner for the global replacement of a fixed word by the
empty string (`acc.replace(new RegExp(suf, 'g'), '')`): leftmost
non-overlapping occurrences are removed.  Each step consumes at least one
character of the list and one unit of fuel, so `fuel = l.length` always
suffices; on fuel exhaustion the rest is returned unchanged. -/
def removeAllOccurrencesGo (w : List Char) : ℕ → List Char → List Char
  | 0, l => l
  | _, [] => []
  | fuel + 1, c :: cs =>
    if w ≠ [] ∧ w.isPrefixOf (c :: cs) then
      removeAllOccurrencesGo w fuel ((c :: cs).drop w.length)
    else c :: removeAllOccurrencesGo w fuel cs

/-- Global replacement of a fixed word by the empty string. -/
def removeAllOccurrences (w : List Char) (l : List Char) : List Char :=
  removeAllOccurrencesGo w l.length l

/-- The `strip` closure of `normalizeName`: fold the generic suffix words,
removing all occurrences of each in turn. -/
def stripGenericSuffixes (l : List Char) : List Char :=
  genericSuffixWords.foldl (fun acc w => removeAllOccurrences w acc) l

/-- `normalizeName` (MapView.jsx lines 335-348): guard against falsy input,
lower-case, delete bracketed segments, delete punctuation/whitespace runs and
trim, strip one leading keyword, strip one trailing keyword, then globally
strip the generic suffix words. -/
def normalizeName (name : String) : String :=
  if name = "" then ""
  else
    let l0 := name.data.map Char.toLower
    let l1 := stripBracketed l0
    let l2 := jsTrimList (removePunct l1)
    let l3 := stripLeadingKeyword l2
    let l4 := stripTrailingKeyword l3
    String.mk (stripGenericSuffixes l4)

/-! ## Number formatting (`Number.prototype.toFixed`) and places -/

/-- Left-pad a digit string with zeros to `n` characters. -/
def padLeftZeros (s : String) (n : ℕ) : String :=
  String.mk (List.replicate (n - s.length) '0') ++ s

/-- `toFixed(digits)` for a nonnegative rational: pick the integer `n` with
`n / 10^digits` closest to the value, rounding ties up (the ES spec picks the
larger candidate). -/
def toFixedNonneg (digits : ℕ) (q : ℚ) : String :=
  let scaled : ℤ := ⌊q * (10 ^ digits : ℚ) + 1 / 2⌋
  let n : ℕ := scaled.toNat
  let intPart := n / 10 ^ digits
  let fracPart := n % 10 ^ digits
  if digits = 0 then toString intPart
  else toString intPart ++ "." ++ padLeftZeros (toString fracPart) digits

/-- `Number.prototype.toFixed(digits)` over the rational model of JS numbers
(negative values format their negation behind a minus sign). -/
def toFixedN (digits : ℕ) (q : ℚ) : String :=
  if q < 0 then "-" ++ toFixedNonneg digits (-q) else toFixedNonneg digits q

/-- A `Place` hint as consumed by MapView: `name` required, optional
`address`, optional numeric coordinates, optional 1-based `day` hint.
Missing or non-numeric JS fields are `none`. -/
structure Place where
  name : String := ""
  address : String := ""
  lng : Option ℚ := none
  lat : Option ℚ := none
  day : Option ℤ := none
  deriving DecidableEq, Repr

/-- `compositeKey` (MapView.jsx lines 351-356):
`normalizeName(name) + "|" + lng.toFixed(6) + "|" + lat.toFixed(6)`, each
coordinate rendering as the string `NaN` when it is not a number. -/
def compositeKey (p : Place) : String :=
  let n := normalizeName p.name
  let lng := match p.lng with | some q => toFixedN 6 q | none => "NaN"
  let lat := match p.lat with | some q => toFixedN 6 q | none => "NaN"
  n ++ "|" ++ lng ++ "|" ++ lat

/-! ## JS `Map<String, ℕ>` as an insertion-ordered association list -/

abbrev JsMap := List (String × ℕ)

/-- `Map.prototype.has`. -/
def jsHas (m : JsMap) (k : String) : Bool :=
  m.any (fun e => e.1 = k)

/-- `Map.prototype.get` (undefined is `none`). -/
def jsGet (m : JsMap) (k : String) : Option ℕ :=
  (m.find? (fun e => e.1 = k)).map (·.2)

/-- `Map.prototype.set`: overwrite an existing binding in place, else append. -/
def jsSet (m : JsMap) (k : String) (v : ℕ) : JsMap :=
  if jsHas m k then m.map (fun e => if e.1 = k then (k, v) else e)
  else m ++ [(k, v)]

/-! ## Name matching -/

/-- Substring occurrence test on character lists. -/
def hasSubstring : List Char → List Char → Bool
  | pat, [] => pat.isEmpty
  | pat, c :: cs => pat.isPrefixOf (c :: cs) || hasSubstring pat cs

/-- `String.prototype.includes`: `jsIncludes s pat` means `s.includes(pat)`. -/
def jsIncludes (s pat : String) : Bool :=
  hasSubstring pat.data s.data

/-- `isNameMatch` (MapView.jsx lines 359-384): exact equality, containment
either way, then the same after normalization, then (both normalized forms
longer than 2) a length-ratio-gated containment test. -/
def isNameMatch (a b : String) : Bool :=
  let na := jsTrim a
  let nb := jsTrim b
  if na = "" || nb = "" then false
  else if na = nb then true
  else if jsIncludes na nb || jsIncludes nb na then true
  else
    let sa := normalizeName na
    let sb := normalizeName nb
    if sa ≠ "" && sb ≠ "" then
      if sa = sb then true
      else if jsIncludes sa sb || jsIncludes sb sa then true
      else if sa.length > 2 && sb.length > 2 then
        let minLen := min sa.length sb.length
        let maxLen := max sa.length sb.length
        decide ((minLen : ℚ) / (maxLen : ℚ) ≥ 3 / 5) &&
          (if sa.length > sb.length then jsIncludes sa sb else jsIncludes sb sa)
      else false
    else false

/-! ## Day assigner (`computePlaceDayIndexMap`, MapView.jsx lines 388-486) -/

/-- JS array access `allPlaces[i]` at an index known to be in bounds. -/
def placeAt (allPlaces : List Place) (i : ℕ) : Place :=
  allPlaces.getD i {}

/-- The zero-based day index contributed by an explicit `day` hint:
`typeof p.day === 'number' && p.day > 0` yields `p.day - 1`.  The hint is an
integer greater than zero, so the result is a natural number. -/
def dayHintIndex (p : Place) : Option ℕ :=
  match p.day with
  | some d => if 0 < d then some (d - 1).toNat else none
  | none => none

/-- One step of the explicit-day seeding loop: a valid hint writes
`compositeKey(p) -> day-1` into the map. -/
def step1Update (m : JsMap) (p : Place) : JsMap :=
  match dayHintIndex p with
  | some di => jsSet m (compositeKey p) di
  | none => m

/-- Step 1 of `computePlaceDayIndexMap`: seed the key-to-day map from
explicit day hints, in array order (`Map.set` overwrites duplicates). -/
def step1KeyToDay (allPlaces : List Place) : JsMap :=
  allPlaces.foldl step1Update []

/-- The indices pre-consumed before sequence matching: places whose explicit
`day` hint is valid (`assignedIndex` seeding, lines 422-427). -/
def explicitAssigned (allPlaces : List Place) : List ℕ :=
  (List.range allPlaces.length).filter
    (fun i => (dayHintIndex (placeAt allPlaces i)).isSome)

/-- Lookup in the `nameToIndices` index (lines 411-418): candidate positions
whose normalized name equals `norm`, in ascending order.  The source only
registers nonempty normalized names and only queries nonempty targets, for
which this filter agrees with the JS map. -/
def nameToIndicesGet (allPlaces : List Place) (norm : String) : List ℕ :=
  (List.range allPlaces.length).filter
    (fun i => normalizeName (placeAt allPlaces i).name = norm)

/-- The loose-match predicate of the fallback `findIndex` (lines 443-454):
skip consumed indices, then exact equality of trimmed names, containment
either way, or `isNameMatch`. -/
def looseSlotPred (assigned : List ℕ) (targetName : String) (i : ℕ) (p : Place) : Bool :=
  if assigned.contains i then false
  else
    let pName := jsTrim p.name
    let tName := jsTrim targetName
    pName = tName || jsIncludes pName tName || jsIncludes tName pName ||
      isNameMatch pName tName

/-- `Array.prototype.findIndex` with the element index exposed. -/
def findIdxFrom (pred : ℕ → Place → Bool) : ℕ → List Place → Option ℕ
  | _, [] => none
  | i, p :: rest => if pred i p then some i else findIdxFrom pred (i + 1) rest

def jsFindIndex (pred : ℕ → Place → Bool) (l : List Place) : Option ℕ :=
  findIdxFrom pred 0 l

/-- State threaded through sequence matching: the key-to-day map, the set of
consumed place indices (`assignedIndex`), and — mirroring the per-assignment
log lines — the list of indices consumed by day-sequence slots, in
consumption order. -/
structure DayState where
  keyToDay : JsMap
  assigned : List ℕ
  seqChosen : List ℕ
  deriving Repr

/-- Processing of one target name of one day of the `routeSequence`
(lines 432-481).  Exact normalized-name candidates are preferred (first the
raw-name-equal one, else the first of maximal name length — `Array.sort` is
stable, so `[0]` of the length-descending sort is the first maximal
candidate); otherwise the loose `findIndex` scan runs.  The chosen index is
consumed, and the key-to-day binding is written only if the key is absent. -/
def slotStep (allPlaces : List Place) (dayIndex : ℕ) (st : DayState)
    (targetName : String) : DayState :=
  let normTarget := normalizeName targetName
  if normTarget = "" then st
  else
    let candidates :=
      (nameToIndicesGet allPlaces normTarget).filter
        (fun i => !st.assigned.contains i)
    match candidates with
    | [] =>
      match jsFindIndex (looseSlotPred st.assigned targetName) allPlaces with
      | some idx =>
        let key := compositeKey (placeAt allPlaces idx)
        { keyToDay :=
            if jsHas st.keyToDay key then st.keyToDay
            else jsSet st.keyToDay key dayIndex
          assigned := idx :: st.assigned
          seqChosen := st.seqChosen ++ [idx] }
      | none => st
    | c0 :: rest =>
      let chosenIdx :=
        match candidates.find?
            (fun i => jsTrim (placeAt allPlaces i).name = jsTrim targetName) with
        | some c => c
        | none =>
          rest.foldl
            (fun b j =>
              if (placeAt allPlaces j).name.length >
                  (placeAt allPlaces b).name.length then j else b)
            c0
      let key := compositeKey (placeAt allPlaces chosenIdx)
      { keyToDay :=
          if jsHas st.keyToDay key then st.keyToDay
          else jsSet st.keyToDay key dayIndex
        assigned := chosenIdx :: st.assigned
        seqChosen := st.seqChosen ++ [chosenIdx] }

/-- The full day-assignment state: explicit hints first, then — unless the
sequence is empty, in which case the function returns right away — the
day-by-day, name-by-name sequence matching. -/
def computeDayState (allPlaces : List Place) (sequence : List (List String)) :
    DayState :=
  let keyToDay0 := step1KeyToDay allPlaces
  if sequence.isEmpty then ⟨keyToDay0, [], []⟩
  else
    sequence.enum.foldl
      (fun st day => day.2.foldl (slotStep allPlaces day.1) st)
      ⟨keyToDay0, explicitAssigned allPlaces, []⟩

/-- `computePlaceDayIndexMap` (lines 388-486): the key-to-day map of the full
day-assignment state. -/
def computePlaceDayIndexMap (allPlaces : List Place)
    (sequence : List (List String)) : JsMap :=
  (computeDayState allPlaces sequence).keyToDay

/-! ## Geocode resolver (`geocodeWithAugment`, MapView.jsx lines 489-514) -/

/-- One reply of the configured geocoding backend for one query: the call can
throw, resolve to a nullish value, or resolve to a result object whose `lng`
and `lat` fields may or may not be numeric. -/
inductive GeoReply where
  | thrown : GeoReply
  | nullish : GeoReply
  | result (lng lat : Option ℚ) (address : String) : GeoReply
  deriving DecidableEq, Repr

/-- A resolved geocode hit: numeric coordinates plus the returned address. -/
structure GeocodeHit where
  lng : ℚ
  lat : ℚ
  address : String
  deriving DecidableEq, Repr

/-- The acceptance test of the candidate loop:
`r && typeof r.lng === 'number' && typeof r.lat === 'number'`
(a thrown call is caught and also moves on to the next candidate). -/
def numericOf : GeoReply → Option GeocodeHit
  | .result (some lng) (some lat) addr => some ⟨lng, lat, addr⟩
  | _ => none

/-- Alternatives of the trailing administrative-suffix regex
`/(省|市|自治区|特别行政区|县|区)$/g`. -/
def adminSuffixWords : List (List Char) :=
  ["省", "市", "自治区", "特别行政区", "县", "区"].map String.data

/-- Single anchored replacement of the trailing administrative suffix: the
leftmost match ending at the end of the string removes the longest listed
suffix (with the `g` flag no second match can follow a match anchored at
`$`). -/
def stripAdminTail : List Char → List Char
  | [] => []
  | c :: cs =>
    if adminSuffixWords.contains (c :: cs) then []
    else c :: stripAdminTail cs

def stripAdminSuffix (s : String) : String :=
  String.mk (stripAdminTail s.data)

/-- First-occurrence-preserving de-duplication
(`Array.from(new Set(...))`). -/
def jsUniqueGo : ℕ → List String → List String
  | 0, l => l
  | _, [] => []
  | fuel + 1, a :: l => a :: jsUniqueGo fuel (l.filter (fun b => b ≠ a))

def jsUnique (l : List String) : List String :=
  jsUniqueGo l.length l

/-- Candidate queries in push order, before `filter(Boolean)` and
de-duplication (lines 490-500): the address and name when truthy, then the
destination-augmented name, then the name augmented with the destination
stripped of its administrative suffix (only when that changes the
destination). -/
def geocodeCandidatesRaw (p : Place) (destinationCtx : String) : List String :=
  (if p.address ≠ "" then [p.address] else []) ++
  (if p.name ≠ "" then [p.name] else []) ++
  (if p.name ≠ "" ∧ destinationCtx ≠ "" then
    [destinationCtx ++ " " ++ p.name] else []) ++
  (if p.name ≠ "" ∧ destinationCtx ≠ "" then
    (let city := stripAdminSuffix destinationCtx
     if city ≠ "" ∧ city ≠ destinationCtx then [city ++ " " ++ p.name] else [])
   else [])

/-- The de-duplicated candidate list actually tried
(`Array.from(new Set(candidates.filter(Boolean)))`). -/
def geocodeCandidates (p : Place) (destinationCtx : String) : List String :=
  jsUnique ((geocodeCandidatesRaw p destinationCtx).filter (fun q => q ≠ ""))

/-- The candidate loop: try each query in order against the backend; return
the first numeric result; `none` models exhausting all candidates and
throwing the not-found error. -/
def tryCandidates (backend : String → GeoReply) : List String → Option GeocodeHit
  | [] => none
  | q :: rest =>
    match numericOf (backend q) with
    | some r => some r
    | none => tryCandidates backend rest

/-- `geocodeWithAugment` (lines 489-514), parameterized by the geocoding
backend. -/
def geocodeWithAugment (backend : String → GeoReply) (p : Place)
    (destinationCtx : String) : Option GeocodeHit :=
  tryCandidates backend (geocodeCandidates p destinationCtx)

/-! ## Boundary / range filter (MapView.jsx lines 517-583 and 1275-1302) -/

/-- The `j` pointer of the ray-casting loop
(`for (i = 0, j = ring.length - 1; i < ring.length; j = i++)`): the previous
vertex, starting with the last one. -/
def edgePartners (ring : List (ℚ × ℚ)) : List (ℚ × ℚ) :=
  match ring.getLast? with
  | none => []
  | some lastV => lastV :: ring.dropLast

/-- Ray casting against one ring (`isPointInRing`).  The JS `&&`
short-circuits, so the division only runs when `yi` and `yj` straddle the
latitude (hence `yj - yi ≠ 0`); in that situation rational division agrees
with the float expression `((xj-xi)*(ptLat-yi))/(yj-yi+0.0)+xi`. -/
def isPointInRing (ptLng ptLat : ℚ) (ring : List (ℚ × ℚ)) : Bool :=
  (ring.zip (edgePartners ring)).foldl
    (fun inside e =>
      let xi := e.1.1
      let yi := e.1.2
      let xj := e.2.1
      let yj := e.2.2
      let intersect :=
        (decide (yi > ptLat) != decide (yj > ptLat)) &&
          decide (ptLng < (xj - xi) * (ptLat - yi) / (yj - yi) + xi)
      if intersect then !inside else inside)
    false

/-- GeoJSON geometry supported by `pointInPolygon`: rings are closed
coordinate lists `[lng, lat]`. -/
inductive Geometry where
  | polygon (rings : List (List (ℚ × ℚ)))
  | multiPolygon (polygons : List (List (List (ℚ × ℚ))))
  deriving DecidableEq, Repr

/-- `Polygon` membership: inside the outer ring and in no hole; an absent
outer ring fails. -/
def polygonContains (lng lat : ℚ) (rings : List (List (ℚ × ℚ))) : Bool :=
  match rings with
  | [] => false
  | outer :: holes =>
    if !isPointInRing lng lat outer then false
    else !holes.any (isPointInRing lng lat)

/-- `pointInPolygon` (lines 528-569): ray casting with hole support for
`Polygon` and `MultiPolygon` (a polygon with no outer ring is skipped). -/
def pointInPolygon (lng lat : ℚ) : Geometry → Bool
  | .polygon rings => polygonContains lng lat rings
  | .multiPolygon polys =>
    polys.any (fun rings =>
      match rings with
      | [] => false
      | outer :: holes =>
        isPointInRing lng lat outer && !holes.any (isPointInRing lng lat))

/-- Degrees to radians. -/
noncomputable def toRad (d : ℚ) : ℝ :=
  (d : ℝ) * Real.pi / 180

/-- `Math.atan2` on the mathematical reals. -/
noncomputable def atan2 (y x : ℝ) : ℝ :=
  if 0 < x then Real.arctan (y / x)
  else if x < 0 then
    (if 0 ≤ y then Real.arctan (y / x) + Real.pi
     else Real.arctan (y / x) - Real.pi)
  else if 0 < y then Real.pi / 2
  else if y < 0 then -(Real.pi / 2)
  else 0

/-- `haversineKm` (lines 572-583): great-circle distance in kilometres,
modelled over the mathematical reals. -/
noncomputable def haversineKm (lng1 lat1 lng2 lat2 : ℚ) : ℝ :=
  let dLat := toRad (lat2 - lat1)
  let dLng := toRad (lng2 - lng1)
  let a :=
    Real.sin (dLat / 2) * Real.sin (dLat / 2) +
      Real.cos (toRad lat1) * Real.cos (toRad lat2) *
        (Real.sin (dLng / 2) * Real.sin (dLng / 2))
  let c := 2 * atan2 (Real.sqrt a) (Real.sqrt (1 - a))
  6371 * c

/-- The per-point test of `filterOnce` (lines 1279-1288): non-numeric
coordinates fail; with `useBoundary` and available boundary geometry the
polygon test applies, otherwise the haversine distance to the destination
centre is compared against the radius. -/
noncomputable def keepPoint (destBoundary : Option Geometry)
    (destLng destLat : ℚ) (useBoundary : Bool) (radius : ℚ) (p : Place) : Bool :=
  match p.lng, p.lat with
  | some lng, some lat =>
    match useBoundary, destBoundary with
    | true, some geom => pointInPolygon lng lat geom
    | _, _ => decide (haversineKm lng lat destLng destLat ≤ (radius : ℝ))
  | _, _ => false

/-- `filterOnce` (lines 1279-1288), with the closed-over destination centre,
boundary and radius made explicit. -/
noncomputable def filterOnce (destBoundary : Option Geometry)
    (destLng destLat : ℚ) (coords : List Place) (useBoundary : Bool)
    (radius : ℚ) : List Place :=
  coords.filter (keepPoint destBoundary destLng destLat useBoundary radius)

/-- `dedupeByCoordGrid` (lines 517-525): collapse onto a coordinate grid of
`decimals` decimal places, keeping the first point per grid key and dropping
non-numeric points. -/
def dedupeByCoordGridAux (decimals : ℕ) (seen : List String) :
    List Place → List Place
  | [] => []
  | c :: rest =>
    match c.lng, c.lat with
    | some lng, some lat =>
      let key := toFixedN decimals lng ++ "," ++ toFixedN decimals lat
      if seen.contains key then dedupeByCoordGridAux decimals seen rest
      else c :: dedupeByCoordGridAux decimals (key :: seen) rest
    | _, _ => dedupeByCoordGridAux decimals seen rest

def dedupeByCoordGrid (coords : List Place) (decimals : ℕ := 5) : List Place :=
  dedupeByCoordGridAux decimals [] coords

/-- The graduated filter of `displayPlacesAndRoute` (lines 1275-1302): strict
pass, then — when it leaves fewer than 2 points or drops more than half —
a radius-only pass at double the radius over the strict output, then — when
still fewer than 2 points remain — the fallback
`dedupeByCoordGrid(places.map(p => p.lng && p.lat ? {...p} : null).filter(Boolean))`
over the original input `places` prop (truthiness drops missing, non-numeric
and zero coordinates). -/
noncomputable def boundaryFilterStage (placesProp : List Place)
    (destBoundary : Option Geometry) (destLng destLat : ℚ) (radiusKm : ℚ)
    (placeCoords0 : List Place) : List Place :=
  let before := placeCoords0.length
  let pass1 := filterOnce destBoundary destLng destLat placeCoords0 true radiusKm
  let dropped := before - pass1.length
  if pass1.length < 2 ∨ (dropped : ℚ) > (before : ℚ) * (1 / 2) then
    let pass2 := filterOnce destBoundary destLng destLat pass1 false (radiusKm * 2)
    if pass2.length < 2 then
      dedupeByCoordGrid
        (placesProp.filterMap (fun p =>
          match p.lng, p.lat with
          | some lng, some lat => if lng ≠ 0 ∧ lat ≠ 0 then some p else none
          | _, _ => none))
    else pass2
  else pass1

/-! ## Day colors and marker styles (MapView.jsx lines 66-77) -/

def routeColors : List String :=
  ["#3388ff", "#ff6600", "#00cc66", "#cc00ff", "#ffcc00", "#ff0066", "#00ccff"]

/-- `getRouteColor`: `colors[dayIndex % colors.length]` (the index is always
in range, so the default is unreachable). -/
def getRouteColor (dayIndex : ℕ) : String :=
  routeColors.getD (dayIndex % routeColors.length) ""

structure MarkerStyle where
  color : String
  pattern : String
  deriving DecidableEq, Repr

/-- `getMarkerStyle`: the route color plus a solid pattern on even days and a
stripe pattern on odd days. -/
def getMarkerStyle (dayIndex : ℕ) : MarkerStyle :=
  { color := getRouteColor dayIndex
    pattern := if dayIndex % 2 = 0 then "solid" else "stripe" }

/-! ## Route composer and polylines (MapView.jsx lines 103-133, 1491-1580) -/

/-- A raw path entry as accepted by `ensureArrayLngLat`: an object with
numeric `lng`/`lat`, an array `[lng, lat, ...]` with numeric head pair, an
object with numeric `x|longitude|lon` and `y|latitude|lat`, or anything
else (dropped). -/
inductive JsPoint where
  | objLngLat (lng lat : ℚ)
  | pairArr (lng lat : ℚ)
  | objXY (x y : ℚ)
  | invalid
  deriving DecidableEq, Repr

def jsPointLngLat : JsPoint → Option (ℚ × ℚ)
  | .objLngLat lng lat => some (lng, lat)
  | .pairArr lng lat => some (lng, lat)
  | .objXY x y => some (x, y)
  | .invalid => none

/-- `ensureArrayLngLat` (lines 103-133): normalize each entry to an
`{lng, lat}` pair, dropping unusable entries. -/
def ensureArrayLngLat (path : List JsPoint) : List (ℚ × ℚ) :=
  path.filterMap jsPointLngLat

/-- A snapshot polyline record.  Style fields are optional to model raw
snapshot data; records built by the renderer fill all of them. -/
structure SnapPolyline where
  path : List JsPoint := []
  strokeColor : Option String := none
  strokeWeight : Option ℚ := none
  strokeOpacity : Option ℚ := none
  strokeStyle : Option String := none
  dayIndex : Option ℕ := none
  deriving DecidableEq, Repr

/-- The polyline record pushed for a successfully composed day route
(lines 1502-1509): the normalized route points with weight 3 and
opacity 0.8. -/
def routeSuccessPolyline (pts : List (ℚ × ℚ)) (dayIndex : ℕ) : SnapPolyline :=
  { path := pts.map (fun c => JsPoint.objLngLat c.1 c.2)
    strokeColor := some (getRouteColor dayIndex)
    strokeWeight := some 3
    strokeOpacity := some (4 / 5)
    strokeStyle := some "solid"
    dayIndex := some dayIndex }

/-- The fallback polyline record pushed when routing fails (lines 1543-1551):
the bare day coordinates in given order with the thinner weight 2 and lighter
opacity 0.6. -/
def routeFallbackPolyline (dayCoords : List (ℚ × ℚ)) (dayIndex : ℕ) :
    SnapPolyline :=
  { path := dayCoords.map (fun c => JsPoint.objLngLat c.1 c.2)
    strokeColor := some (getRouteColor dayIndex)
    strokeWeight := some 2
    strokeOpacity := some (3 / 5)
    strokeStyle := some "solid"
    dayIndex := some dayIndex }

/-- Composition of one day's polyline (lines 1491-1580): a successful
`planRoute` reply is normalized and used when it still has at least 2 points;
a thrown call or a degenerate reply falls back to connecting the input day
coordinates directly. -/
def composeDayRoute (planRouteOutcome : Except Unit (List JsPoint))
    (dayCoords : List (ℚ × ℚ)) (dayIndex : ℕ) : SnapPolyline :=
  match planRouteOutcome with
  | .ok routePoints =>
    let normalized := ensureArrayLngLat routePoints
    if normalized.length < 2 then routeFallbackPolyline dayCoords dayIndex
    else routeSuccessPolyline normalized dayIndex
  | .error _ => routeFallbackPolyline dayCoords dayIndex

/-! ## Render / snapshot manager (MapView.jsx lines 135-174, 202-276,
652-737, 1326-1344) -/

/-- A snapshot place record.  `posLng`/`posLat` model the alternative
`place.position.{lng,lat}` source fields read by
`normalizeSnapshotPlaces`. -/
structure SnapshotPlace where
  name : String := ""
  address : String := ""
  lng : Option ℚ := none
  lat : Option ℚ := none
  posLng : Option ℚ := none
  posLat : Option ℚ := none
  dayIndex : Option ℕ := none
  deriving DecidableEq, Repr

/-- `normalizeSnapshotPlaces` (lines 135-152): coordinates come from the
numeric `lng`/`lat` fields or else from `position`; entries without finite
numeric coordinates are dropped (every rational is finite). -/
def normalizeSnapshotPlaces (raw : List SnapshotPlace) : List SnapshotPlace :=
  raw.filterMap (fun pl =>
    let lng := match pl.lng with | some q => some q | none => pl.posLng
    let lat := match pl.lat with | some q => some q | none => pl.posLat
    match lng, lat with
    | some lngV, some latV =>
      some { name := pl.name, address := pl.address,
             lng := some lngV, lat := some latV,
             dayIndex := pl.dayIndex }
    | _, _ => none)

/-- `normalizeSnapshotPolylines` (lines 154-171): normalize the path, drop
polylines with fewer than 2 usable points, and fill the style fields with
their defaults (`'#3388ff'`, 3, 0.8, solid-unless-dashed).  `strokeColor` is
filled through JS `||`, so an empty stored color also falls back. -/
def normalizeSnapshotPolylines (raw : List SnapPolyline) : List SnapPolyline :=
  raw.filterMap (fun pl =>
    let path := ensureArrayLngLat pl.path
    if path.length < 2 then none
    else
      some { path := path.map (fun c => JsPoint.objLngLat c.1 c.2)
             strokeColor :=
               some (match pl.strokeColor with
                     | some s => if s = "" then "#3388ff" else s
                     | none => "#3388ff")
             strokeWeight := some (pl.strokeWeight.getD 3)
             strokeOpacity := some (pl.strokeOpacity.getD (4 / 5))
             strokeStyle :=
               some (if pl.strokeStyle = some "dashed" then "dashed" else "solid")
             dayIndex := pl.dayIndex })

/-- `normalizeViewportCoords` (lines 173-174). -/
def normalizeViewportCoords (coords : List JsPoint) : List (ℚ × ℚ) :=
  ensureArrayLngLat coords

/-- A serializable capture of a completed render. -/
structure MapSnapshot where
  provider : String := ""
  places : List SnapshotPlace := []
  polylines : List SnapPolyline := []
  viewportCoords : List JsPoint := []
  signature : String := ""
  deriving DecidableEq, Repr

/-- `persistSnapshot` (lines 711-737): normalize places, polylines and
viewport (falling back to the place coordinates when the viewport is empty),
tag with the provider in use and the current input signature. -/
def persistSnapshot (providerInUse inputSignature : String)
    (data : MapSnapshot) : MapSnapshot :=
  let normalizedPlaces := normalizeSnapshotPlaces data.places
  let normalizedPolylines := normalizeSnapshotPolylines data.polylines
  let normalizedViewport := normalizeViewportCoords data.viewportCoords
  { provider := if data.provider ≠ "" then data.provider else providerInUse
    places := normalizedPlaces
    polylines := normalizedPolylines
    viewportCoords :=
      if normalizedViewport.length > 0 then
        normalizedViewport.map (fun c => JsPoint.objLngLat c.1 c.2)
      else
        normalizedPlaces.filterMap (fun pl =>
          match pl.lng, pl.lat with
          | some lng, some lat => some (JsPoint.objLngLat lng lat)
          | _, _ => none)
    signature := inputSignature }

/-- The marker style applied for a resolved day index
(`dayIndex !== undefined && dayIndex !== null ? getMarkerStyle(dayIndex) :
{color:'#999999', pattern:'solid'}`). -/
def markerStyleFor : Option ℕ → MarkerStyle
  | some d => getMarkerStyle d
  | none => { color := "#999999", pattern := "solid" }

/-- A marker as drawn on whichever backend is active: its coordinates and the
style its icon is generated from. -/
structure MarkerDraw where
  lng : ℚ
  lat : ℚ
  style : MarkerStyle
  deriving DecidableEq, Repr

/-- `addMarkerToMap` (lines 202-276): non-numeric coordinates draw nothing;
otherwise one marker with the day-index style is drawn. -/
def addMarkerToMap (coord : SnapshotPlace) (dayIndex : Option ℕ) :
    Option MarkerDraw :=
  match coord.lng, coord.lat with
  | some lng, some lat => some ⟨lng, lat, markerStyleFor dayIndex⟩
  | _, _ => none

/-- A polyline as drawn on whichever backend is active. -/
structure PolylineDraw where
  path : List (ℚ × ℚ)
  strokeColor : String
  strokeWeight : ℚ
  strokeOpacity : ℚ
  strokeStyle : String
  deriving DecidableEq, Repr

/-- `addPolylineToMap` (lines 278-331): re-normalize the path, draw nothing
when fewer than 2 points survive. -/
def addPolylineToMap (path : List JsPoint) (strokeColor : String)
    (strokeWeight strokeOpacity : ℚ) (strokeStyle : String) :
    Option PolylineDraw :=
  let coords := ensureArrayLngLat path
  if coords.length < 2 then none
  else some ⟨coords, strokeColor, strokeWeight, strokeOpacity, strokeStyle⟩

/-- `restoreSnapshot` (lines 652-709), reduced to what it draws: when the
snapshot's provider is compatible with the provider in use, one marker per
normalized snapshot place (styled by its stored day index) and one polyline
per normalized snapshot polyline (styles falling back per the source). -/
def restoreSnapshotDraws (providerInUse : String) (snapshot : MapSnapshot) :
    Option (List MarkerDraw × List PolylineDraw) :=
  if snapshot.provider ≠ "" ∧ snapshot.provider ≠ providerInUse then none
  else
    let snapshotPlaces := normalizeSnapshotPlaces snapshot.places
    let markers := snapshotPlaces.filterMap (fun pl => addMarkerToMap pl pl.dayIndex)
    let snapshotPolylines := normalizeSnapshotPolylines snapshot.polylines
    let polylines := snapshotPolylines.filterMap (fun pl =>
      addPolylineToMap pl.path
        (pl.strokeColor.getD
          (match pl.dayIndex with
           | some d => getRouteColor d
           | none => "#3388ff"))
        (pl.strokeWeight.getD 3) (pl.strokeOpacity.getD (4 / 5))
        (pl.strokeStyle.getD "solid"))
    some (markers, polylines)

/-- The day index resolved for a geocoded place during rendering
(lines 1331-1336 and identically 1350-1355): the key-to-day map first, then a
valid explicit `day` hint. -/
def resolveDayIndex (keyToDay : JsMap) (coord : Place) : Option ℕ :=
  match jsGet keyToDay (compositeKey coord) with
  | some d => some d
  | none => dayHintIndex coord

/-- The markers drawn by `makeMarker` over the geocoded place list
(lines 1349-1402): one marker per place, styled by its resolved day index
(the geocoded list only ever holds numeric coordinates). -/
def renderMarkerDraws (placeCoords : List Place) (keyToDay : JsMap) :
    List MarkerDraw :=
  placeCoords.filterMap (fun coord =>
    match coord.lng, coord.lat with
    | some lng, some lat =>
      some ⟨lng, lat, markerStyleFor (resolveDayIndex keyToDay coord)⟩
    | _, _ => none)

/-- The snapshot place records built by a completed render
(lines 1328-1344). -/
def renderSnapshotPlaces (placeCoords : List Place) (keyToDay : JsMap) :
    List SnapshotPlace :=
  (placeCoords.filter (fun c => c.lng.isSome && c.lat.isSome)).map
    (fun coord =>
      { name := coord.name, address := coord.address,
        lng := coord.lng, lat := coord.lat,
        dayIndex := resolveDayIndex keyToDay coord })

/-- The polyline drawn for one pushed snapshot polyline record: the renderer
draws exactly the record's path and stroke attributes (lines 1511-1539 and
1552-1579). -/
def polylineDrawOfSnap (pl : SnapPolyline) : PolylineDraw :=
  { path := ensureArrayLngLat pl.path
    strokeColor := pl.strokeColor.getD ""
    strokeWeight := pl.strokeWeight.getD 3
    strokeOpacity := pl.strokeOpacity.getD (4 / 5)
    strokeStyle := pl.strokeStyle.getD "solid" }

/-! ## Concrete instances used by the theorems below -/

/-- The ASCII lowercase letters and digits: characters untouched by every
stage of `normalizeName`. -/
def plainChars : List Char :=
  ['a', 'b', 'c', 'd', 'e', 'f', 'g', 'h', 'i', 'j', 'k', 'l', 'm',
   'n', 'o', 'p', 'q', 'r', 's', 't', 'u', 'v', 'w', 'x', 'y', 'z',
   '0', '1', '2', '3', '4', '5', '6', '7', '8', '9']

/-- A destination boundary: the square with longitudes -1..1 and
latitudes 179..181. -/
def cexSquareBoundary : Geometry :=
  .polygon [[(-1, 179), (1, 179), (1, 181), (-1, 181)]]

/-- A geocoded place inside `cexSquareBoundary` but very far from the
centre `(0, 0)`. -/
def cexFarPlace : Place :=
  { name := "p", lng := some 0, lat := some 180 }

/-- Two places with the same name, no coordinates and conflicting explicit
day hints: their composite keys coincide. -/
def c3DupPlaces : List Place :=
  [{ name := "a", day := some 2 }, { name := "a", day := some 3 }]

/-- Input `places` prop carrying no coordinates (they would be geocoded at
runtime). -/
def c6Props : List Place :=
  [{ name := "a" }, { name := "b" }]

/-- A destination boundary square far away from the geocoded points. -/
def c6Boundary : Geometry :=
  .polygon [[(0, 0), (1, 0), (1, 1), (0, 1)]]

/-- The geocoded results for `c6Props`: two distinct points outside
`c6Boundary`. -/
def c6Geocoded : List Place :=
  [{ name := "a", lng := some 10, lat := some 10 },
   { name := "b", lng := some 11, lat := some 11 }]

/-! ## Helper lemmas

The core rational operations are `@[irreducible]` by default, which blocks
`decide`-based evaluation of the concrete instances below; restore the
default reducibility for them. -/

attribute [local semireducible] Rat.add Rat.mul Rat.inv Rat.sub Rat.ofScientific

theorem foldl_preserve {α β : Type} {P : β → Prop} {f : β → α → β}
    (hf : ∀ b a, P b → P (f b a)) :
    ∀ (l : List α) (b : β), P b → P (l.foldl f b) := by
  intro l
  induction l with
  | nil => intro b hb; exact hb
  | cons a l ih => intro b hb; exact ih (f b a) (hf b a hb)

theorem jsGet_cons (e : String × ℕ) (m : JsMap) (k : String) :
    jsGet (e :: m) k = if e.1 = k then some e.2 else jsGet m k := by
  unfold jsGet
  by_cases h : e.1 = k
  · rw [List.find?_cons_of_pos _ (by simpa using h), if_pos h]
    rfl
  · rw [List.find?_cons_of_neg _ (by simpa using h), if_neg h]

theorem jsHas_false_forall {m : JsMap} {k : String} (h : jsHas m k = false) :
    ∀ e ∈ m, e.1 ≠ k := by
  intro e he hek
  have htrue : jsHas m k = true := by
    unfold jsHas
    exact List.any_eq_true.mpr ⟨e, he, by simpa using hek⟩
  rw [htrue] at h
  cases h

theorem jsHas_cons_tail {e : String × ℕ} {m : JsMap} {k : String}
    (h : jsHas (e :: m) k = true) (h0 : e.1 ≠ k) : jsHas m k = true := by
  simp only [jsHas, List.any_cons, Bool.or_eq_true] at h
  rcases h with h1 | h1
  · exact absurd (by simpa using h1) h0
  · simpa [jsHas] using h1

theorem jsHas_cons_tail_false {e : String × ℕ} {m : JsMap} {k : String}
    (h : jsHas (e :: m) k = false) : jsHas m k = false := by
  simp only [jsHas, List.any_cons, Bool.or_eq_false_iff] at h
  simpa [jsHas] using h.2

theorem jsSet_keys (m : JsMap) (k : String) (v : ℕ) :
    (jsSet m k v).map Prod.fst =
      if jsHas m k then m.map Prod.fst else m.map Prod.fst ++ [k] := by
  unfold jsSet
  by_cases h : jsHas m k
  · simp only [h, if_true, List.map_map]
    apply List.map_congr_left
    intro e _
    by_cases he : e.1 = k <;> simp [he]
  · simp only [Bool.not_eq_true] at h
    simp [h]

theorem jsSet_keys_nodup {m : JsMap} (k : String) (v : ℕ)
    (h : (m.map Prod.fst).Nodup) : ((jsSet m k v).map Prod.fst).Nodup := by
  rw [jsSet_keys]
  by_cases hhas : jsHas m k
  · simpa [hhas] using h
  · simp only [Bool.not_eq_true] at hhas
    have hk : k ∉ m.map Prod.fst := by
      intro hmem
      obtain ⟨e, he, hek⟩ := List.mem_map.mp hmem
      exact jsHas_false_forall hhas e he hek
    simp [hhas, List.nodup_append, h, hk]

theorem jsGet_map_set_self (m : JsMap) (k : String) (v : ℕ)
    (hhas : jsHas m k = true) :
    jsGet (m.map (fun e => if e.1 = k then (k, v) else e)) k = some v := by
  induction m with
  | nil => simp [jsHas] at hhas
  | cons e0 rest ih =>
    simp only [List.map_cons]
    by_cases h0 : e0.1 = k
    · rw [if_pos h0, jsGet_cons, if_pos rfl]
    · rw [if_neg h0, jsGet_cons, if_neg h0]
      exact ih (jsHas_cons_tail hhas h0)

theorem jsGet_append_self (m : JsMap) (k : String) (v : ℕ)
    (hhas : jsHas m k = false) :
    jsGet (m ++ [(k, v)]) k = some v := by
  induction m with
  | nil => rw [List.nil_append, jsGet_cons, if_pos rfl]
  | cons e0 rest ih =>
    have h0 : e0.1 ≠ k := jsHas_false_forall hhas e0 (by simp)
    rw [List.cons_append, jsGet_cons, if_neg h0]
    exact ih (jsHas_cons_tail_false hhas)

theorem jsGet_jsSet_self (m : JsMap) (k : String) (v : ℕ) :
    jsGet (jsSet m k v) k = some v := by
  unfold jsSet
  by_cases hhas : jsHas m k
  · simp only [hhas, if_true]
    exact jsGet_map_set_self m k v hhas
  · simp only [Bool.not_eq_true] at hhas
    simp only [hhas, Bool.false_eq_true, if_false]
    exact jsGet_append_self m k v hhas

theorem jsGet_map_set_ne (m : JsMap) {k k' : String} (v : ℕ) (h : k' ≠ k) :
    jsGet (m.map (fun e => if e.1 = k then (k, v) else e)) k' = jsGet m k' := by
  induction m with
  | nil => rfl
  | cons e0 rest ih =>
    simp only [List.map_cons]
    by_cases h0 : e0.1 = k
    · rw [if_pos h0, jsGet_cons, jsGet_cons, if_neg (fun hc => h hc.symm),
        if_neg (show ¬e0.1 = k' by rw [h0]; exact fun hc => h hc.symm)]
      exact ih
    · rw [if_neg h0, jsGet_cons, jsGet_cons]
      by_cases h1 : e0.1 = k'
      · rw [if_pos h1, if_pos h1]
      · rw [if_neg h1, if_neg h1]
        exact ih

theorem jsGet_append_ne (m : JsMap) {k k' : String} (v : ℕ) (h : k' ≠ k) :
    jsGet (m ++ [(k, v)]) k' = jsGet m k' := by
  induction m with
  | nil =>
    rw [List.nil_append, jsGet_cons, if_neg (fun hc => h hc.symm)]
  | cons e0 rest ih =>
    rw [List.cons_append, jsGet_cons, jsGet_cons]
    by_cases h1 : e0.1 = k'
    · rw [if_pos h1, if_pos h1]
    · rw [if_neg h1, if_neg h1]
      exact ih

theorem jsGet_jsSet_ne (m : JsMap) {k k' : String} (v : ℕ) (h : k' ≠ k) :
    jsGet (jsSet m k v) k' = jsGet m k' := by
  unfold jsSet
  by_cases hhas : jsHas m k
  · simp only [hhas, if_true]
    exact jsGet_map_set_ne m v h
  · simp only [Bool.not_eq_true] at hhas
    simp only [hhas, Bool.false_eq_true, if_false]
    exact jsGet_append_ne m v h

theorem jsGet_mem_keys {m : JsMap} {k : String} {v : ℕ}
    (h : jsGet m k = some v) : jsHas m k = true := by
  induction m with
  | nil => simp [jsGet] at h
  | cons e0 rest ih =>
    rw [jsGet_cons] at h
    by_cases h0 : e0.1 = k
    · simp [jsHas, List.any_cons, h0]
    · rw [if_neg h0] at h
      simp only [jsHas, List.any_cons, Bool.or_eq_true]
      exact Or.inr (by simpa [jsHas] using ih h)

/-- A binding survives a has-guarded `Map.set` (the write pattern of the
sequence-matching step). -/
theorem jsGet_guardedSet {m : JsMap} {k : String} {v : ℕ} (k2 : String) (v2 : ℕ)
    (h : jsGet m k = some v) :
    jsGet (if jsHas m k2 then m else jsSet m k2 v2) k = some v := by
  split
  · exact h
  · next hhas =>
    have hk : k ≠ k2 := by
      intro hc
      subst hc
      rw [jsGet_mem_keys h] at hhas
      exact hhas rfl
    rw [jsGet_jsSet_ne _ _ hk]
    exact h

theorem routeColors_getD_inj {r₁ r₂ : ℕ} (h₁ : r₁ < 7) (h₂ : r₂ < 7) :
    (routeColors.getD r₁ "" = routeColors.getD r₂ "") ↔ r₁ = r₂ := by
  interval_cases r₁ <;> interval_cases r₂ <;> decide

/-- C9 counterexample: day indices 0 and 14 are distinct, share the same
route color and also share the same marker style (both solid), so they are
not distinguishable by their marker pattern. -/
theorem c9_counterexample :
    getRouteColor 0 = getRouteColor 14 ∧ getMarkerStyle 0 = getMarkerStyle 14 ∧
      (0 : ℕ) ≠ 14 := by
  exact ⟨rfl, rfl, by decide⟩

/-- C9 (amended): each day's color is drawn from the fixed 7-color cycle and
its pattern alternates with the parity of the day, so two day indices share
the same route color exactly when they agree modulo 7, and share the whole
marker style (color and pattern) exactly when they agree modulo 14.  Days 7
apart are distinguished by the pattern, but days 14 apart (such as 0 and 14)
are visually identical. -/
theorem c9_color_style_cycle (d₁ d₂ : ℕ) :
    (getRouteColor d₁ = getRouteColor d₂ ↔ d₁ % 7 = d₂ % 7) ∧
    (getMarkerStyle d₁ = getMarkerStyle d₂ ↔ d₁ % 14 = d₂ % 14) := by
  have hlen : routeColors.length = 7 := rfl
  have hcol : ∀ e₁ e₂ : ℕ, (getRouteColor e₁ = getRouteColor e₂ ↔ e₁ % 7 = e₂ % 7) := by
    intro e₁ e₂
    unfold getRouteColor
    rw [hlen]
    exact routeColors_getD_inj (Nat.mod_lt _ (by norm_num)) (Nat.mod_lt _ (by norm_num))
  refine ⟨hcol d₁ d₂, ?_⟩
  have hpat : ((if d₁ % 2 = 0 then ("solid" : String) else "stripe") =
      (if d₂ % 2 = 0 then ("solid" : String) else "stripe")) ↔ d₁ % 2 = d₂ % 2 := by
    rcases Nat.mod_two_eq_zero_or_one d₁ with h1 | h1 <;>
      rcases Nat.mod_two_eq_zero_or_one d₂ with h2 | h2 <;>
        simp [h1, h2]
  constructor
  · intro h
    have hc : getRouteColor d₁ = getRouteColor d₂ := congrArg MarkerStyle.color h
    have hp : (getMarkerStyle d₁).pattern = (getMarkerStyle d₂).pattern :=
      congrArg MarkerStyle.pattern h
    have h7 : d₁ % 7 = d₂ % 7 := (hcol d₁ d₂).mp hc
    have h2 : d₁ % 2 = d₂ % 2 := hpat.mp (by simpa [getMarkerStyle] using hp)
    omega
  · intro h
    have h7 : d₁ % 7 = d₂ % 7 := by omega
    have h2 : d₁ % 2 = d₂ % 2 := by omega
    unfold getMarkerStyle
    rw [(hcol d₁ d₂).mpr h7, hpat.mpr h2]

/-- C4 counterexample: `normalizeName` is not idempotent.  On the string
made of the strippable leading keyword repeated twice, the anchored prefix
regex removes one copy per application, so a second application changes the
result again. -/
theorem c4_counterexample :
    normalizeName (normalizeName "前往前往") ≠ normalizeName "前往前往" := by
  decide

/-- C10 counterexample: for a place with numeric `lng` but missing `lat`,
`compositeKey` renders the numeric coordinate, so the key is not
`normalize(name) + "|NaN|NaN"` even though one of the coordinates is not a
number. -/
theorem c10_counterexample :
    compositeKey { name := "a", lng := some 1 } ≠ normalizeName "a" ++ "|NaN|NaN" := by
  decide

/-- C7: for every day point list with at least 2 points, a failed backend
routing call — a thrown call or a reply that normalizes to fewer than 2
points — makes the route composer fall back to the bare input points
connected in their given order, drawn with stroke weight 2 and opacity 0.6,
strictly thinner and lighter than the weight 3 and opacity 0.8 of a
successfully composed route.  In particular a failed 3-point day yields
exactly the 3 input points in original order. -/
theorem c7_route_fallback (outcome : Except Unit (List JsPoint))
    (dayCoords : List (ℚ × ℚ)) (dayIndex : ℕ)
    (h2 : 2 ≤ dayCoords.length)
    (hfail : outcome = .error () ∨
      ∃ pts, outcome = .ok pts ∧ (ensureArrayLngLat pts).length < 2) :
    (composeDayRoute outcome dayCoords dayIndex).path =
      dayCoords.map (fun c => JsPoint.objLngLat c.1 c.2) ∧
    (composeDayRoute outcome dayCoords dayIndex).strokeWeight = some 2 ∧
    (composeDayRoute outcome dayCoords dayIndex).strokeOpacity = some (3 / 5) ∧
    (∀ pts, 2 ≤ (ensureArrayLngLat pts).length →
      (composeDayRoute (.ok pts) dayCoords dayIndex).strokeWeight = some 3 ∧
      (composeDayRoute (.ok pts) dayCoords dayIndex).strokeOpacity = some (4 / 5)) ∧
    (2 : ℚ) < 3 ∧ (3 / 5 : ℚ) < 4 / 5 := by
  have hsucc : ∀ pts, 2 ≤ (ensureArrayLngLat pts).length →
      (composeDayRoute (.ok pts) dayCoords dayIndex).strokeWeight = some 3 ∧
      (composeDayRoute (.ok pts) dayCoords dayIndex).strokeOpacity = some (4 / 5) := by
    intro pts hlen
    simp only [composeDayRoute, if_neg (by omega : ¬(ensureArrayLngLat pts).length < 2)]
    exact ⟨rfl, rfl⟩
  have hfb : composeDayRoute outcome dayCoords dayIndex =
      routeFallbackPolyline dayCoords dayIndex := by
    rcases hfail with h | ⟨pts, hok, hlen⟩
    · rw [h]
      rfl
    · rw [hok]
      simp only [composeDayRoute, if_pos hlen]
  refine ⟨?_, ?_, ?_, hsucc, by norm_num, by norm_num⟩
  · rw [hfb]; rfl
  · rw [hfb]; rfl
  · rw [hfb]; rfl

/-- Witness for C7: the 3-point scenario of the specification — routing
fails for a 3-point day, and the composed fallback path is exactly those
3 points in their original order. -/
theorem c7_route_fallback_witness :
    2 ≤ ([((0 : ℚ), (0 : ℚ)), (1, 1), (2, 2)] : List (ℚ × ℚ)).length ∧
    (composeDayRoute (.error ()) [((0 : ℚ), (0 : ℚ)), (1, 1), (2, 2)] 0).path =
      [JsPoint.objLngLat 0 0, JsPoint.objLngLat 1 1, JsPoint.objLngLat 2 2] := by
  have h := c7_route_fallback (.error ()) [((0 : ℚ), (0 : ℚ)), (1, 1), (2, 2)] 0
    (by decide) (Or.inl rfl)
  exact ⟨by decide, h.1.trans (by decide)⟩

theorem jsUniqueGo_sublist : ∀ (fuel : ℕ) (l : List String),
    (jsUniqueGo fuel l).Sublist l := by
  intro fuel
  induction fuel with
  | zero => intro l; simpa [jsUniqueGo] using List.Sublist.refl l
  | succ n ih =>
    intro l
    cases l with
    | nil => simp [jsUniqueGo]
    | cons a rest =>
      exact (ih (rest.filter (fun b => b ≠ a))).trans
        (List.filter_sublist rest) |>.cons₂ a

theorem jsUniqueGo_nodup : ∀ (fuel : ℕ) (l : List String),
    l.length ≤ fuel → (jsUniqueGo fuel l).Nodup := by
  intro fuel
  induction fuel with
  | zero =>
    intro l hl
    rw [Nat.le_zero, List.length_eq_zero] at hl
    subst hl
    exact List.nodup_nil
  | succ n ih =>
    intro l hl
    cases l with
    | nil => exact List.nodup_nil
    | cons a rest =>
      simp only [jsUniqueGo, List.nodup_cons]
      constructor
      · intro hmem
        have hmem' : a ∈ rest.filter (fun b => b ≠ a) :=
          (jsUniqueGo_sublist n _).subset hmem
        have := List.of_mem_filter hmem'
        simp at this
      · exact ih _ (le_trans (List.length_filter_le _ _)
          (by simpa using Nat.le_of_succ_le_succ hl))

theorem jsUnique_nodup (l : List String) : (jsUnique l).Nodup :=
  jsUniqueGo_nodup l.length l le_rfl

theorem jsUnique_sublist (l : List String) : (jsUnique l).Sublist l :=
  jsUniqueGo_sublist l.length l

theorem tryCandidates_eq_none_iff (backend : String → GeoReply) (l : List String) :
    tryCandidates backend l = none ↔ ∀ q ∈ l, numericOf (backend q) = none := by
  induction l with
  | nil => simp [tryCandidates]
  | cons q rest ih =>
    simp only [tryCandidates]
    cases h : numericOf (backend q) with
    | some r => simp [h]
    | none => simpa [h] using ih

theorem tryCandidates_eq_some (backend : String → GeoReply) :
    ∀ (l : List String) (r : GeocodeHit), tryCandidates backend l = some r →
    ∃ pre q suf, l = pre ++ q :: suf ∧ numericOf (backend q) = some r ∧
      ∀ q' ∈ pre, numericOf (backend q') = none := by
  intro l
  induction l with
  | nil => intro r h; cases h
  | cons q rest ih =>
    intro r h
    cases hq : numericOf (backend q) with
    | some r' =>
      simp only [tryCandidates, hq] at h
      refine ⟨[], q, rest, by simp, ?_, by simp⟩
      rw [hq, h]
    | none =>
      simp only [tryCandidates, hq] at h
      obtain ⟨pre, q', suf, hsplit, hhit, hpre⟩ := ih r h
      refine ⟨q :: pre, q', suf, by simp [hsplit], hhit, ?_⟩
      intro x hx
      rcases List.mem_cons.mp hx with rfl | hx
      · exact hq
      · exact hpre x hx

/-- C5: the geocode resolver builds the ordered, de-duplicated candidate
list — address, name, destination-augmented name, admin-suffix-stripped
destination-augmented name, in that order with duplicates removed — tries
the candidates in exactly that order, returns the first backend reply with
numeric `lng` and `lat`, and fails with the not-found error exactly when
every candidate is exhausted without such a reply. -/
theorem c5_geocode_resolver (backend : String → GeoReply) (p : Place)
    (destinationCtx : String) :
    (geocodeCandidates p destinationCtx).Nodup ∧
    (geocodeCandidates p destinationCtx).Sublist
      (geocodeCandidatesRaw p destinationCtx) ∧
    (geocodeWithAugment backend p destinationCtx = none ↔
      ∀ q ∈ geocodeCandidates p destinationCtx, numericOf (backend q) = none) ∧
    (∀ r, geocodeWithAugment backend p destinationCtx = some r →
      ∃ pre q suf, geocodeCandidates p destinationCtx = pre ++ q :: suf ∧
        numericOf (backend q) = some r ∧
        ∀ q' ∈ pre, numericOf (backend q') = none) := by
  refine ⟨jsUnique_nodup _, ?_, ?_, ?_⟩
  · exact (jsUnique_sublist _).trans (List.filter_sublist _)
  · exact tryCandidates_eq_none_iff backend _
  · intro r h
    exact tryCandidates_eq_some backend _ r h

/-- C2 (amended): each filter pass only ever returns a subset of its input,
and when no boundary geometry is available — both passes then use the
haversine radius test — the strict pass at radius `r ≥ 0` is a subset of the
relaxed pass at radius `2r` over the same input.  When boundary geometry
exists the strict pass is a polygon test independent of the radius, and
need not be contained in the relaxed radius pass (see the counterexample). -/
theorem c2_filter_relaxation (destBoundary : Option Geometry)
    (destLng destLat : ℚ) (coords : List Place) (r : ℚ) (hr : 0 ≤ r) :
    (∀ p ∈ filterOnce destBoundary destLng destLat coords true r, p ∈ coords) ∧
    (∀ p ∈ filterOnce destBoundary destLng destLat coords false (r * 2),
      p ∈ coords) ∧
    (destBoundary = none →
      ∀ p ∈ filterOnce destBoundary destLng destLat coords true r,
        p ∈ filterOnce destBoundary destLng destLat coords false (r * 2)) := by
  refine ⟨fun p hp => List.mem_of_mem_filter hp,
    fun p hp => List.mem_of_mem_filter hp, ?_⟩
  rintro rfl p hp
  obtain ⟨hmem, hkeep⟩ := List.mem_filter.mp hp
  refine List.mem_filter.mpr ⟨hmem, ?_⟩
  rcases hlng : p.lng with _ | lng
  · rw [show keepPoint none destLng destLat true r p = false by
      unfold keepPoint; rw [hlng]] at hkeep
    cases hkeep
  · rcases hlat : p.lat with _ | lat
    · rw [show keepPoint none destLng destLat true r p = false by
        unfold keepPoint; rw [hlng, hlat]] at hkeep
      cases hkeep
    · rw [show keepPoint none destLng destLat true r p =
          decide (haversineKm lng lat destLng destLat ≤ (r : ℝ)) by
        unfold keepPoint; rw [hlng, hlat]] at hkeep
      rw [show keepPoint none destLng destLat false (r * 2) p =
          decide (haversineKm lng lat destLng destLat ≤ ((r * 2 : ℚ) : ℝ)) by
        unfold keepPoint; rw [hlng, hlat]]
      have hd : haversineKm lng lat destLng destLat ≤ (r : ℝ) :=
        of_decide_eq_true hkeep
      refine decide_eq_true ?_
      have hrr : (r : ℝ) ≤ ((r * 2 : ℚ) : ℝ) := by
        push_cast
        nlinarith [show (0 : ℝ) ≤ (r : ℝ) from by exact_mod_cast hr]
      exact le_trans hd hrr

/-- Witness for C2 (amended) at the default radius 60 over a singleton
coordinate-free input with no boundary. -/
theorem c2_filter_relaxation_witness :
    (0 : ℚ) ≤ 60 ∧
    (∀ p ∈ filterOnce none 0 0 [({ name := "a" } : Place)] true 60,
      p ∈ [({ name := "a" } : Place)]) := by
  have h := c2_filter_relaxation none 0 0 [({ name := "a" } : Place)] 60
    (by norm_num)
  exact ⟨by norm_num, h.1⟩

/-- Evaluation of the haversine distance from `(0, 180)` to the centre
`(0, 0)`: the latitude difference of 180 degrees makes the haversine term 1,
so the distance is `6371·π` kilometres. -/
theorem haversine_cex_eval : haversineKm 0 180 0 0 = 6371 * Real.pi := by
  have hq1 : (((0 : ℚ) - 180 : ℚ) : ℝ) = -180 := by norm_num
  have hq2 : (((0 : ℚ) - 0 : ℚ) : ℝ) = 0 := by norm_num
  have hq3 : (((180 : ℚ)) : ℝ) = 180 := by norm_num
  have hq4 : (((0 : ℚ)) : ℝ) = 0 := by norm_num
  have e1 : (-180 : ℝ) * Real.pi / 180 / 2 = -(Real.pi / 2) := by ring
  have e2 : (0 : ℝ) * Real.pi / 180 / 2 = 0 := by ring
  have e3 : (180 : ℝ) * Real.pi / 180 = Real.pi := by ring
  have e4 : (0 : ℝ) * Real.pi / 180 = 0 := by ring
  have e5 : (0 : ℝ) / 2 = 0 := by norm_num
  have hsin : Real.sin (-(Real.pi / 2)) = -1 := by
    rw [Real.sin_neg, Real.sin_pi_div_two]
  have ha : Real.sin (-(Real.pi / 2)) * Real.sin (-(Real.pi / 2)) +
      Real.cos Real.pi * Real.cos 0 * (Real.sin 0 * Real.sin 0) = 1 := by
    rw [hsin, Real.sin_zero, Real.cos_pi, Real.cos_zero]
    ring
  simp only [haversineKm, toRad, hq1, hq2, hq3, hq4, e1, e2, e3, e4, e5, ha]
  rw [Real.sqrt_one, show (1 : ℝ) - 1 = 0 by ring, Real.sqrt_zero]
  unfold atan2
  rw [if_neg (lt_irrefl 0), if_neg (lt_irrefl 0), if_pos one_pos]
  ring

/-- C2 counterexample: with boundary geometry present, the strict pass is a
polygon test independent of the radius, so its output need not be contained
in the relaxed double-radius pass over the same input: the place at
`(0, 180)` lies inside the square boundary (strict pass keeps it) but
`6371·π` kilometres from the centre (relaxed radius pass at 120 drops it). -/
theorem c2_counterexample :
    cexFarPlace ∈ filterOnce (some cexSquareBoundary) 0 0 [cexFarPlace] true 60 ∧
    cexFarPlace ∉
      filterOnce (some cexSquareBoundary) 0 0 [cexFarPlace] false (60 * 2) := by
  constructor
  · decide
  · have hd : ¬(haversineKm 0 180 0 0 ≤ ((60 * 2 : ℚ) : ℝ)) := by
      rw [haversine_cex_eval]
      push_cast
      nlinarith [Real.pi_gt_three]
    have hk : keepPoint (some cexSquareBoundary) 0 0 false (60 * 2) cexFarPlace
        = false := by
      rw [show keepPoint (some cexSquareBoundary) 0 0 false (60 * 2) cexFarPlace =
          decide (haversineKm 0 180 0 0 ≤ ((60 * 2 : ℚ) : ℝ)) from rfl]
      exact decide_eq_false hd
    intro hmem
    have hkeep := (List.mem_filter.mp hmem).2
    rw [hk] at hkeep
    cases hkeep

/-- C6: evaluation of the graduated filter at the failing input.  Both
geocoded points fall outside the boundary, so the strict pass empties the
set, the relaxed pass filters the (already empty) strict output, and the
abandon-filtering fallback rebuilds from the original `places` prop — which
carries no coordinates — rather than from the de-duplicated geocoded input
set: the stage returns the empty list even though the claim requires the
full de-duplicated geocoded input set (which is nonempty and
dedupe-stable). -/
theorem c6_fallback_empties_dataset :
    boundaryFilterStage c6Props (some c6Boundary) 0 0 60 c6Geocoded = [] ∧
    dedupeByCoordGrid c6Geocoded = c6Geocoded ∧ c6Geocoded ≠ [] := by
  refine ⟨by decide, by decide, by decide⟩

theorem step1Update_eq_some {q : Place} {w : ℕ} (hd : dayHintIndex q = some w)
    (m : JsMap) : step1Update m q = jsSet m (compositeKey q) w := by
  unfold step1Update
  rw [hd]

theorem step1Update_eq_none {q : Place} (hd : dayHintIndex q = none)
    (m : JsMap) : step1Update m q = m := by
  unfold step1Update
  rw [hd]

theorem step1Fold_preserve (k : String) (v : ℕ) :
    ∀ (l : List Place) (m : JsMap),
    (∀ q ∈ l, ∀ w, dayHintIndex q = some w → compositeKey q = k → w = v) →
    jsGet m k = some v →
    jsGet (l.foldl step1Update m) k = some v := by
  intro l
  induction l with
  | nil => intro m _ h; exact h
  | cons q rest ih =>
    intro m hagree h
    rw [List.foldl_cons]
    refine ih (step1Update m q)
      (fun q' hq' => hagree q' (List.mem_cons_of_mem q hq')) ?_
    cases hd : dayHintIndex q with
    | none =>
      rw [step1Update_eq_none hd]
      exact h
    | some w =>
      rw [step1Update_eq_some hd]
      by_cases hk : compositeKey q = k
      · have hw : w = v := hagree q (List.mem_cons_self q rest) w hd hk
        rw [hk, hw]
        exact jsGet_jsSet_self m k v
      · rw [jsGet_jsSet_ne m w (fun hc => hk hc.symm)]
        exact h

theorem step1Fold_write (p : Place) (v : ℕ) (hv : dayHintIndex p = some v) :
    ∀ (l : List Place) (m : JsMap), p ∈ l →
    (∀ q ∈ l, ∀ w, dayHintIndex q = some w →
      compositeKey q = compositeKey p → w = v) →
    jsGet (l.foldl step1Update m) (compositeKey p) = some v := by
  intro l
  induction l with
  | nil => intro m hmem _; cases hmem
  | cons q rest ih =>
    intro m hmem hagree
    rw [List.foldl_cons]
    rcases List.mem_cons.mp hmem with heq | hmem'
    · refine step1Fold_preserve (compositeKey p) v rest _
        (fun q' hq' => hagree q' (List.mem_cons_of_mem _ hq')) ?_
      unfold step1Update
      rw [← heq, hv]
      exact jsGet_jsSet_self m _ v
    · exact ih (step1Update m q) hmem'
        (fun q' hq' => hagree q' (List.mem_cons_of_mem _ hq'))

/-- The sequence-matching step never removes or overwrites an existing
binding: both of its writes are guarded by `!keyToDay.has(key)`. -/
theorem slotStep_preserves_binding (allPlaces : List Place) (dayIndex : ℕ)
    (st : DayState) (targetName : String) {k : String} {v : ℕ}
    (h : jsGet st.keyToDay k = some v) :
    jsGet (slotStep allPlaces dayIndex st targetName).keyToDay k = some v := by
  unfold slotStep
  by_cases hnt : normalizeName targetName = ""
  · rw [if_pos hnt]
    exact h
  · rw [if_neg hnt]
    cases hcand : (nameToIndicesGet allPlaces (normalizeName targetName)).filter
        (fun i => !st.assigned.contains i) with
    | nil =>
      cases hfind : jsFindIndex
          (looseSlotPred st.assigned targetName) allPlaces with
      | none => exact h
      | some idx => exact jsGet_guardedSet _ _ h
    | cons c0 rest => exact jsGet_guardedSet _ _ h

theorem dayFold_preserves_binding (allPlaces : List Place)
    (sequence : List (List String)) (st : DayState) {k : String} {v : ℕ}
    (h : jsGet st.keyToDay k = some v) :
    jsGet ((sequence.enum.foldl
      (fun st day => day.2.foldl (slotStep allPlaces day.1) st) st).keyToDay)
      k = some v := by
  refine foldl_preserve (P := fun st : DayState => jsGet st.keyToDay k = some v)
    ?_ sequence.enum st h
  intro st' day hst'
  exact foldl_preserve
    (P := fun st : DayState => jsGet st.keyToDay k = some v)
    (fun b a hb => slotStep_preserves_binding allPlaces day.1 b a hb)
    day.2 st' hst'

/-- C3 counterexample: two places with the same composite key (same name, no
coordinates) and conflicting explicit day hints.  `Map.set` overwrites, so
the key ends up bound to the later hint's index 2; for the first place the
claim demands `day - 1 = 1`, which does not hold — even with an empty
`RouteSequence`. -/
theorem c3_counterexample :
    jsGet (computePlaceDayIndexMap c3DupPlaces [])
        (compositeKey { name := "a", day := some 2 }) = some 2 ∧
    dayHintIndex ({ name := "a", day := some 2 } : Place) = some 1 := by
  refine ⟨by decide, by decide⟩

/-- C3 (amended): for every place carrying an explicit day hint, provided
all hint-carrying places that share its composite key agree on the same day
value, the day-assignment map binds the place's composite key to `day - 1`,
and no sequence-based matching ever overwrites that binding, for any
`RouteSequence` whatsoever. -/
theorem c3_explicit_day_wins (allPlaces : List Place)
    (sequence : List (List String)) (p : Place) (v : ℕ)
    (hmem : p ∈ allPlaces) (hv : dayHintIndex p = some v)
    (hagree : ∀ q ∈ allPlaces, ∀ w, dayHintIndex q = some w →
      compositeKey q = compositeKey p → w = v) :
    jsGet (computePlaceDayIndexMap allPlaces sequence) (compositeKey p)
      = some v := by
  unfold computePlaceDayIndexMap computeDayState
  have hstep1 : jsGet (step1KeyToDay allPlaces) (compositeKey p) = some v :=
    step1Fold_write p v hv allPlaces [] hmem hagree
  by_cases hseq : sequence.isEmpty
  · simp only [hseq, if_true]
    exact hstep1
  · simp only [hseq, Bool.false_eq_true, if_false]
    exact dayFold_preserves_binding allPlaces sequence _ hstep1

/-- Witness for C3 (amended): a single place with hint day 2 and a
conflicting sequence that mentions the same name for day 1; the key still
maps to index 1. -/
theorem c3_explicit_day_wins_witness :
    ({ name := "a", day := some 2 } : Place) ∈
        [({ name := "a", day := some 2 } : Place)] ∧
    dayHintIndex ({ name := "a", day := some 2 } : Place) = some 1 ∧
    jsGet (computePlaceDayIndexMap [{ name := "a", day := some 2 }] [["a"]])
      (compositeKey { name := "a", day := some 2 }) = some 1 := by
  refine ⟨by decide, by decide, ?_⟩
  exact c3_explicit_day_wins [{ name := "a", day := some 2 }] [["a"]]
    { name := "a", day := some 2 } 1 (by decide) (by decide)
    (by
      intro q hq w hw hk
      rcases List.mem_cons.mp hq with rfl | hq'
      · rw [show dayHintIndex ({ name := "a", day := some 2 } : Place) =
          some 1 from by decide] at hw
        exact (Option.some.inj hw).symm
      · cases hq')

theorem mem_explicitAssigned (l : List Place) (i : ℕ) :
    i ∈ explicitAssigned l ↔
      i < l.length ∧ (dayHintIndex (placeAt l i)).isSome := by
  simp [explicitAssigned, List.mem_filter, List.mem_range]

theorem step1KeyToDay_keys_nodup (allPlaces : List Place) :
    ((step1KeyToDay allPlaces).map Prod.fst).Nodup := by
  unfold step1KeyToDay
  refine foldl_preserve (P := fun m : JsMap => (m.map Prod.fst).Nodup)
    ?_ allPlaces [] (by simp)
  intro m p hm
  cases hd : dayHintIndex p with
  | none =>
    rw [step1Update_eq_none hd]
    exact hm
  | some w =>
    rw [step1Update_eq_some hd]
    exact jsSet_keys_nodup _ _ hm

theorem candidates_mem_facts {allPlaces : List Place} {norm : String}
    {assigned : List ℕ} {i : ℕ}
    (h : i ∈ (nameToIndicesGet allPlaces norm).filter
      (fun j => !assigned.contains j)) :
    i < allPlaces.length ∧ i ∉ assigned := by
  obtain ⟨h1, h2⟩ := List.mem_filter.mp h
  refine ⟨List.mem_range.mp (List.mem_of_mem_filter h1), ?_⟩
  intro hi
  simp [hi] at h2

theorem findIdxFrom_spec (pred : ℕ → Place → Bool) :
    ∀ (l : List Place) (start j : ℕ), findIdxFrom pred start l = some j →
    ∃ off, off < l.length ∧ j = start + off ∧ pred j (l.getD off {}) = true := by
  intro l
  induction l with
  | nil => intro start j h; cases h
  | cons p rest ih =>
    intro start j h
    unfold findIdxFrom at h
    by_cases hp : pred start p
    · rw [if_pos hp] at h
      obtain rfl : start = j := Option.some.inj h
      exact ⟨0, by simp, by omega, by simpa using hp⟩
    · rw [if_neg hp] at h
      obtain ⟨off, h1, h2, h3⟩ := ih (start + 1) j h
      exact ⟨off + 1, by simpa using Nat.succ_lt_succ h1, by omega, by simpa using h3⟩

theorem jsFindIndex_spec {pred : ℕ → Place → Bool} {l : List Place} {j : ℕ}
    (h : jsFindIndex pred l = some j) :
    j < l.length ∧ pred j (placeAt l j) = true := by
  obtain ⟨off, h1, h2, h3⟩ := findIdxFrom_spec pred l 0 j h
  have : j = off := by omega
  subst this
  exact ⟨h1, h3⟩

theorem looseSlotPred_not_assigned {assigned : List ℕ} {t : String} {i : ℕ}
    {p : Place} (h : looseSlotPred assigned t i p = true) : i ∉ assigned := by
  intro hi
  unfold looseSlotPred at h
  rw [if_pos (by simpa using hi)] at h
  cases h

theorem foldl_pick_mem (f : ℕ → ℕ) :
    ∀ (l : List ℕ) (b : ℕ),
      l.foldl (fun b j => if f j > f b then j else b) b ∈ b :: l := by
  intro l
  induction l with
  | nil => intro b; simp
  | cons x xs ih =>
    intro b
    rw [List.foldl_cons]
    rcases List.mem_cons.mp (ih (if f x > f b then x else b)) with h | h
    · rw [h]
      by_cases hx : f x > f b
      · rw [if_pos hx]
        exact List.mem_cons_of_mem _ (List.mem_cons_self _ _)
      · rw [if_neg hx]
        exact List.mem_cons_self _ _
    · exact List.mem_cons_of_mem _ (List.mem_cons_of_mem _ h)

theorem slotStep_eq_of_empty_target (allPlaces : List Place) (dayIndex : ℕ)
    (st : DayState) {targetName : String}
    (h : normalizeName targetName = "") :
    slotStep allPlaces dayIndex st targetName = st := by
  unfold slotStep
  rw [if_pos h]

theorem slotStep_eq_loose_none (allPlaces : List Place) (dayIndex : ℕ)
    (st : DayState) {targetName : String}
    (hnt : normalizeName targetName ≠ "")
    (hcand : (nameToIndicesGet allPlaces (normalizeName targetName)).filter
      (fun i => !st.assigned.contains i) = [])
    (hfind : jsFindIndex (looseSlotPred st.assigned targetName) allPlaces = none) :
    slotStep allPlaces dayIndex st targetName = st := by
  unfold slotStep
  rw [if_neg hnt, hcand, hfind]

theorem slotStep_eq_loose_some (allPlaces : List Place) (dayIndex : ℕ)
    (st : DayState) {targetName : String} {idx : ℕ}
    (hnt : normalizeName targetName ≠ "")
    (hcand : (nameToIndicesGet allPlaces (normalizeName targetName)).filter
      (fun i => !st.assigned.contains i) = [])
    (hfind : jsFindIndex (looseSlotPred st.assigned targetName) allPlaces
      = some idx) :
    slotStep allPlaces dayIndex st targetName =
      ⟨if jsHas st.keyToDay (compositeKey (placeAt allPlaces idx))
          then st.keyToDay
          else jsSet st.keyToDay (compositeKey (placeAt allPlaces idx)) dayIndex,
        idx :: st.assigned, st.seqChosen ++ [idx]⟩ := by
  unfold slotStep
  rw [if_neg hnt, hcand, hfind]

theorem slotStep_eq_exact (allPlaces : List Place) (dayIndex : ℕ)
    (st : DayState) {targetName : String} {c0 : ℕ} {rest : List ℕ}
    (hnt : normalizeName targetName ≠ "")
    (hcand : (nameToIndicesGet allPlaces (normalizeName targetName)).filter
      (fun i => !st.assigned.contains i) = c0 :: rest) :
    ∃ chosenIdx, chosenIdx ∈ c0 :: rest ∧
      slotStep allPlaces dayIndex st targetName =
        ⟨if jsHas st.keyToDay (compositeKey (placeAt allPlaces chosenIdx))
            then st.keyToDay
            else jsSet st.keyToDay (compositeKey (placeAt allPlaces chosenIdx))
              dayIndex,
          chosenIdx :: st.assigned, st.seqChosen ++ [chosenIdx]⟩ := by
  unfold slotStep
  rw [if_neg hnt, hcand]
  cases hfind : (c0 :: rest).find?
      (fun i => jsTrim (placeAt allPlaces i).name = jsTrim targetName) with
  | some c =>
    refine ⟨c, List.mem_of_find?_eq_some hfind, ?_⟩
    simp only [hfind]
  | none =>
    refine ⟨rest.foldl
        (fun b j => if (placeAt allPlaces j).name.length >
          (placeAt allPlaces b).name.length then j else b) c0,
      foldl_pick_mem (fun j => (placeAt allPlaces j).name.length) rest c0, ?_⟩
    simp only [hfind]

theorem consumed_state_inv (allPlaces : List Place) (dayIndex : ℕ)
    (st : DayState) (idx : ℕ) (key : String)
    (hlt : idx < allPlaces.length) (hna : idx ∉ st.assigned)
    (h1 : st.seqChosen.Nodup)
    (h2 : ∀ i ∈ st.seqChosen, i ∈ st.assigned)
    (h3 : ∀ i ∈ st.seqChosen, i < allPlaces.length ∧
      i ∉ explicitAssigned allPlaces)
    (h4 : ∀ i ∈ explicitAssigned allPlaces, i ∈ st.assigned)
    (h5 : (st.keyToDay.map Prod.fst).Nodup) :
    (st.seqChosen ++ [idx]).Nodup ∧
    (∀ i ∈ st.seqChosen ++ [idx], i ∈ idx :: st.assigned) ∧
    (∀ i ∈ st.seqChosen ++ [idx], i < allPlaces.length ∧
      i ∉ explicitAssigned allPlaces) ∧
    (∀ i ∈ explicitAssigned allPlaces, i ∈ idx :: st.assigned) ∧
    (((if jsHas st.keyToDay key then st.keyToDay
        else jsSet st.keyToDay key dayIndex).map Prod.fst).Nodup) := by
  have hidxnot : idx ∉ st.seqChosen := fun hmem => hna (h2 idx hmem)
  refine ⟨?_, ?_, ?_, ?_, ?_⟩
  · simp [List.nodup_append, h1, hidxnot]
  · intro i hi
    rcases List.mem_append.mp hi with hi' | hi'
    · exact List.mem_cons_of_mem _ (h2 i hi')
    · rw [List.mem_singleton.mp hi']
      exact List.mem_cons_self _ _
  · intro i hi
    rcases List.mem_append.mp hi with hi' | hi'
    · exact h3 i hi'
    · rw [List.mem_singleton.mp hi']
      exact ⟨hlt, fun hmem => hna (h4 idx hmem)⟩
  · intro i hi
    exact List.mem_cons_of_mem _ (h4 i hi)
  · by_cases hhas : jsHas st.keyToDay key
    · simpa [hhas] using h5
    · simp only [Bool.not_eq_true] at hhas
      simp only [hhas, Bool.false_eq_true, if_false]
      exact jsSet_keys_nodup _ _ h5

theorem slotStep_inv (allPlaces : List Place) (dayIndex : ℕ)
    (targetName : String) (st : DayState)
    (h1 : st.seqChosen.Nodup)
    (h2 : ∀ i ∈ st.seqChosen, i ∈ st.assigned)
    (h3 : ∀ i ∈ st.seqChosen, i < allPlaces.length ∧
      i ∉ explicitAssigned allPlaces)
    (h4 : ∀ i ∈ explicitAssigned allPlaces, i ∈ st.assigned)
    (h5 : (st.keyToDay.map Prod.fst).Nodup) :
    (slotStep allPlaces dayIndex st targetName).seqChosen.Nodup ∧
    (∀ i ∈ (slotStep allPlaces dayIndex st targetName).seqChosen,
      i ∈ (slotStep allPlaces dayIndex st targetName).assigned) ∧
    (∀ i ∈ (slotStep allPlaces dayIndex st targetName).seqChosen,
      i < allPlaces.length ∧ i ∉ explicitAssigned allPlaces) ∧
    (∀ i ∈ explicitAssigned allPlaces,
      i ∈ (slotStep allPlaces dayIndex st targetName).assigned) ∧
    (((slotStep allPlaces dayIndex st targetName).keyToDay.map Prod.fst).Nodup)
    := by
  by_cases hnt : normalizeName targetName = ""
  · rw [slotStep_eq_of_empty_target allPlaces dayIndex st hnt]
    exact ⟨h1, h2, h3, h4, h5⟩
  · cases hcand : (nameToIndicesGet allPlaces (normalizeName targetName)).filter
        (fun i => !st.assigned.contains i) with
    | nil =>
      cases hfind : jsFindIndex
          (looseSlotPred st.assigned targetName) allPlaces with
      | none =>
        rw [slotStep_eq_loose_none allPlaces dayIndex st hnt hcand hfind]
        exact ⟨h1, h2, h3, h4, h5⟩
      | some idx =>
        obtain ⟨hlt, hpred⟩ := jsFindIndex_spec hfind
        have hna : idx ∉ st.assigned := looseSlotPred_not_assigned hpred
        rw [slotStep_eq_loose_some allPlaces dayIndex st hnt hcand hfind]
        exact consumed_state_inv allPlaces dayIndex st idx _ hlt hna h1 h2 h3 h4 h5
    | cons c0 rest =>
      obtain ⟨chosenIdx, hmem, heq⟩ :=
        slotStep_eq_exact allPlaces dayIndex st hnt hcand
      have hfacts : chosenIdx < allPlaces.length ∧ chosenIdx ∉ st.assigned :=
        candidates_mem_facts (hcand ▸ hmem)
      rw [heq]
      exact consumed_state_inv allPlaces dayIndex st chosenIdx _
        hfacts.1 hfacts.2 h1 h2 h3 h4 h5

theorem computeDayState_inv (allPlaces : List Place)
    (sequence : List (List String)) :
    (computeDayState allPlaces sequence).seqChosen.Nodup ∧
    (∀ i ∈ (computeDayState allPlaces sequence).seqChosen,
      i < allPlaces.length ∧ i ∉ explicitAssigned allPlaces) ∧
    (((computeDayState allPlaces sequence).keyToDay.map Prod.fst).Nodup) := by
  unfold computeDayState
  by_cases hseq : sequence.isEmpty
  · simp only [hseq, if_true]
    exact ⟨List.nodup_nil, by simp, step1KeyToDay_keys_nodup _⟩
  · simp only [hseq, Bool.false_eq_true, if_false]
    have hfold := foldl_preserve
      (P := fun st : DayState =>
        st.seqChosen.Nodup ∧
        (∀ i ∈ st.seqChosen, i ∈ st.assigned) ∧
        (∀ i ∈ st.seqChosen, i < allPlaces.length ∧
          i ∉ explicitAssigned allPlaces) ∧
        (∀ i ∈ explicitAssigned allPlaces, i ∈ st.assigned) ∧
        ((st.keyToDay.map Prod.fst).Nodup))
      (f := fun st day => day.2.foldl (slotStep allPlaces day.1) st)
      (fun st day hst =>
        foldl_preserve
          (P := fun st : DayState =>
            st.seqChosen.Nodup ∧
            (∀ i ∈ st.seqChosen, i ∈ st.assigned) ∧
            (∀ i ∈ st.seqChosen, i < allPlaces.length ∧
              i ∉ explicitAssigned allPlaces) ∧
            (∀ i ∈ explicitAssigned allPlaces, i ∈ st.assigned) ∧
            ((st.keyToDay.map Prod.fst).Nodup))
          (fun b a hb =>
            slotStep_inv allPlaces day.1 a b hb.1 hb.2.1 hb.2.2.1
              hb.2.2.2.1 hb.2.2.2.2)
          day.2 st hst)
      sequence.enum
      ⟨step1KeyToDay allPlaces, explicitAssigned allPlaces, []⟩
      ⟨List.nodup_nil, by simp, by simp, fun i hi => hi,
        step1KeyToDay_keys_nodup _⟩
    exact ⟨hfold.1, hfold.2.2.1, hfold.2.2.2.2⟩

/-- C1: on every input, the day-assignment map binds each composite key to at
most one day index (its key list has no duplicates), and the list of place
positions consumed by day-sequence slots has no duplicates and contains no
position that was consumed by an explicit day hint — once consumed, a place
is never chosen for a second day-sequence slot. -/
theorem c1_day_assignment_consumption (allPlaces : List Place)
    (sequence : List (List String)) :
    ((computePlaceDayIndexMap allPlaces sequence).map Prod.fst).Nodup ∧
    (computeDayState allPlaces sequence).seqChosen.Nodup ∧
    (∀ i ∈ (computeDayState allPlaces sequence).seqChosen,
      (dayHintIndex (placeAt allPlaces i)).isNone) := by
  obtain ⟨hh1, hh2, hh3⟩ := computeDayState_inv allPlaces sequence
  refine ⟨hh3, hh1, ?_⟩
  intro i hi
  obtain ⟨hlt, hnotex⟩ := hh2 i hi
  rw [Option.isNone_iff_eq_none]
  cases hd : dayHintIndex (placeAt allPlaces i) with
  | none => rfl
  | some w =>
    exact absurd ((mem_explicitAssigned allPlaces i).mpr
      ⟨hlt, by simp [hd]⟩) hnotex

/-- Witness for C1 over a concrete input: two same-named places, one
explicit hint, one two-day sequence. -/
theorem c1_day_assignment_consumption_witness :
    ((computePlaceDayIndexMap
      [{ name := "a", day := some 1 }, { name := "a" }]
      [["a"], ["a"]]).map Prod.fst).Nodup := by
  exact (c1_day_assignment_consumption
    [{ name := "a", day := some 1 }, { name := "a" }] [["a"], ["a"]]).1

theorem string_append_nan (s : String) :
    s ++ "|" ++ "NaN" ++ "|" ++ "NaN" = s ++ "|NaN|NaN" := by
  cases s with
  | mk data =>
    show String.mk (data ++ "|".data ++ "NaN".data ++ "|".data ++ "NaN".data) =
      String.mk (data ++ "|NaN|NaN".data)
    rw [List.append_assoc, List.append_assoc, List.append_assoc]
    exact congrArg String.mk (congrArg (data ++ ·) (by decide))

/-- C10 (amended): for every place whose `lng` and `lat` are both missing or
non-numeric, `compositeKey` returns `normalize(name) + "|NaN|NaN"`; two such
un-geocoded places with equal normalized names collapse to the same
composite key, and the day-assignment map — whose key list never holds
duplicates — can hold at most one day index for all of them together.  (When
only one of the two coordinates is non-numeric the other is still rendered,
see the counterexample.) -/
theorem c10_nan_key_collapse (p q : Place)
    (hp1 : p.lng = none) (hp2 : p.lat = none)
    (hq1 : q.lng = none) (hq2 : q.lat = none) :
    compositeKey p = normalizeName p.name ++ "|NaN|NaN" ∧
    (normalizeName p.name = normalizeName q.name →
      compositeKey p = compositeKey q) ∧
    ∀ (places : List Place) (sequence : List (List String)),
      ((computePlaceDayIndexMap places sequence).map Prod.fst).Nodup := by
  have hkey : ∀ r : Place, r.lng = none → r.lat = none →
      compositeKey r = normalizeName r.name ++ "|NaN|NaN" := by
    intro r h1 h2
    unfold compositeKey
    rw [h1, h2]
    exact string_append_nan (normalizeName r.name)
  refine ⟨hkey p hp1 hp2, ?_, ?_⟩
  · intro hn
    rw [hkey p hp1 hp2, hkey q hq1 hq2, hn]
  · intro places sequence
    exact (computeDayState_inv places sequence).2.2

/-- Witness for C10 (amended) at two concrete coordinate-free places with
equal normalized names. -/
theorem c10_nan_key_collapse_witness :
    ({ name := "towera" } : Place).lng = none ∧
    compositeKey ({ name := "towera" } : Place) =
      normalizeName "towera" ++ "|NaN|NaN" ∧
    compositeKey ({ name := "towera" } : Place) =
      compositeKey ({ name := "towera", day := some 2 } : Place) := by
  have h := c10_nan_key_collapse { name := "towera" }
    { name := "towera", day := some 2 } rfl rfl rfl rfl
  exact ⟨rfl, h.1, h.2.1 rfl⟩

theorem plain_facts {c : Char} (h : c ∈ plainChars) :
    Char.toLower c = c ∧ isPunctOrSpace c = false ∧ isJsWhitespace c = false ∧
    c ≠ '(' ∧ c ≠ '（' ∧ c.toNat < 256 := by
  fin_cases h <;> exact ⟨by decide, by decide, by decide, by decide, by decide,
    by decide⟩

theorem leadingKeywords_heads :
    ∀ w ∈ leadingKeywords, w ≠ [] ∧ 255 < (w.headD ' ').toNat := by decide

theorem trailingKeywords_heads :
    ∀ w ∈ trailingKeywords, w ≠ [] ∧ 255 < (w.headD ' ').toNat := by decide

theorem genericSuffixWords_heads :
    ∀ w ∈ genericSuffixWords, w ≠ [] ∧ 255 < (w.headD ' ').toNat := by decide

theorem keyword_not_isPrefixOf {w : List Char} (hne : w ≠ [])
    (hbig : 255 < (w.headD ' ').toNat) {c : Char} {rest : List Char}
    (hc : c.toNat < 256) : w.isPrefixOf (c :: rest) = false := by
  cases w with
  | nil => exact absurd rfl hne
  | cons w0 ws =>
    have hbig' : 255 < w0.toNat := by simpa using hbig
    have hne0 : (w0 == c) = false := by
      refine beq_eq_false_iff_ne.mpr ?_
      intro he
      rw [he] at hbig'
      omega
    simp [List.isPrefixOf, hne0]

theorem keyword_not_isPrefixOf_plain {w : List Char} (hne : w ≠ [])
    (hbig : 255 < (w.headD ' ').toNat) {l : List Char}
    (h : ∀ c ∈ l, c ∈ plainChars) : w.isPrefixOf l = false := by
  cases l with
  | nil =>
    cases w with
    | nil => exact absurd rfl hne
    | cons w0 ws => rfl
  | cons c cs =>
    exact keyword_not_isPrefixOf hne hbig
      ((plain_facts (h c (List.mem_cons_self c cs))).2.2.2.2.2)

theorem map_toLower_plain {l : List Char} (h : ∀ c ∈ l, c ∈ plainChars) :
    l.map Char.toLower = l := by
  induction l with
  | nil => rfl
  | cons c cs ih =>
    rw [List.map_cons, (plain_facts (h c (List.mem_cons_self c cs))).1,
      ih (fun x hx => h x (List.mem_cons_of_mem c hx))]

theorem stripBracketedGo_plain :
    ∀ (fuel : ℕ) (l : List Char), (∀ c ∈ l, c ∈ plainChars) →
    stripBracketedGo fuel l = l := by
  intro fuel
  induction fuel with
  | zero => intro l _; cases l <;> rfl
  | succ n ih =>
    intro l h
    cases l with
    | nil => rfl
    | cons c cs =>
      obtain ⟨_, _, _, hc1, hc2, _⟩ := plain_facts (h c (List.mem_cons_self c cs))
      simp only [stripBracketedGo]
      rw [if_neg hc1, if_neg hc2,
        ih cs (fun x hx => h x (List.mem_cons_of_mem c hx))]

theorem removePunct_plain {l : List Char} (h : ∀ c ∈ l, c ∈ plainChars) :
    removePunct l = l := by
  unfold removePunct
  refine List.filter_eq_self.mpr ?_
  intro c hc
  rw [(plain_facts (h c hc)).2.1]
  rfl

theorem dropWhile_ws_plain {l : List Char} (h : ∀ c ∈ l, c ∈ plainChars) :
    l.dropWhile isJsWhitespace = l := by
  cases l with
  | nil => rfl
  | cons c cs =>
    exact List.dropWhile_cons_of_neg
      (by simp [(plain_facts (h c (List.mem_cons_self c cs))).2.2.1])

theorem jsTrimList_plain {l : List Char} (h : ∀ c ∈ l, c ∈ plainChars) :
    jsTrimList l = l := by
  unfold jsTrimList
  rw [dropWhile_ws_plain h,
    dropWhile_ws_plain (fun c hc => h c (List.mem_reverse.mp hc)),
    List.reverse_reverse]

theorem stripLeadingKeyword_plain {l : List Char}
    (h : ∀ c ∈ l, c ∈ plainChars) : stripLeadingKeyword l = l := by
  have hnone : leadingKeywords.find? (fun w => w.isPrefixOf l) = none := by
    rw [List.find?_eq_none]
    intro w hw
    obtain ⟨hne, hbig⟩ := leadingKeywords_heads w hw
    simp [keyword_not_isPrefixOf_plain hne hbig h]
  unfold stripLeadingKeyword
  rw [hnone]

theorem stripTrailingKeyword_plain {l : List Char}
    (h : ∀ c ∈ l, c ∈ plainChars) : stripTrailingKeyword l = l := by
  induction l with
  | nil => rfl
  | cons c cs ih =>
    have hcontains :
        trailingKeywords.contains ((c :: cs).dropWhile isJsWhitespace)
          = false := by
      rw [dropWhile_ws_plain h]
      refine Bool.eq_false_iff.mpr ?_
      intro hcon
      have hmem : (c :: cs) ∈ trailingKeywords := by simpa using hcon
      obtain ⟨hne, hbig⟩ := trailingKeywords_heads _ hmem
      have hbig' : 255 < c.toNat := by simpa using hbig
      have hcsmall := (plain_facts (h c (List.mem_cons_self c cs))).2.2.2.2.2
      omega
    simp only [stripTrailingKeyword, hcontains, Bool.false_eq_true, if_false]
    rw [ih (fun x hx => h x (List.mem_cons_of_mem c hx))]

theorem removeAllOccurrencesGo_plain {w : List Char} (hne : w ≠ [])
    (hbig : 255 < (w.headD ' ').toNat) :
    ∀ (fuel : ℕ) (l : List Char), (∀ c ∈ l, c ∈ plainChars) →
    removeAllOccurrencesGo w fuel l = l := by
  intro fuel
  induction fuel with
  | zero => intro l _; cases l <;> rfl
  | succ n ih =>
    intro l h
    cases l with
    | nil => rfl
    | cons c cs =>
      have hp : w.isPrefixOf (c :: cs) = false :=
        keyword_not_isPrefixOf hne hbig
          ((plain_facts (h c (List.mem_cons_self c cs))).2.2.2.2.2)
      simp only [removeAllOccurrencesGo]
      rw [if_neg (by simp [hp]), ih cs (fun x hx => h x (List.mem_cons_of_mem c hx))]

theorem stripGenericSuffixes_plain {l : List Char}
    (h : ∀ c ∈ l, c ∈ plainChars) : stripGenericSuffixes l = l := by
  unfold stripGenericSuffixes
  have hgen : ∀ (ws : List (List Char)),
      (∀ w ∈ ws, w ≠ [] ∧ 255 < (w.headD ' ').toNat) →
      ws.foldl (fun acc w => removeAllOccurrences w acc) l = l := by
    intro ws
    induction ws with
    | nil => intro _; rfl
    | cons w ws' ih =>
      intro hws
      rw [List.foldl_cons]
      have hw := hws w (List.mem_cons_self _ _)
      rw [show removeAllOccurrences w l = l from
        removeAllOccurrencesGo_plain hw.1 hw.2 l.length l h]
      exact ih (fun x hx => hws x (List.mem_cons_of_mem _ hx))
  exact hgen genericSuffixWords genericSuffixWords_heads

theorem normalizeName_plain {s : String} (h : ∀ c ∈ s.data, c ∈ plainChars) :
    normalizeName s = s := by
  unfold normalizeName
  by_cases hs : s = ""
  · rw [if_pos hs, hs]
  · rw [if_neg hs]
    simp only []
    rw [map_toLower_plain h,
      show stripBracketed s.data = s.data from
        stripBracketedGo_plain s.data.length s.data h,
      removePunct_plain h, jsTrimList_plain h, stripLeadingKeyword_plain h,
      stripTrailingKeyword_plain h, stripGenericSuffixes_plain h]

/-- C4 (amended): `normalizeName` is a pure function, but not idempotent on
all strings (see the counterexample: a second application strips a further
leading keyword).  On strings of plain lowercase ASCII letters and digits —
characters untouched by every stage — `normalizeName` is the identity, and
hence idempotent. -/
theorem c4_normalize_plain_identity (s : String)
    (h : ∀ c ∈ s.data, c ∈ plainChars) :
    normalizeName s = s ∧
    normalizeName (normalizeName s) = normalizeName s := by
  have hid := normalizeName_plain h
  exact ⟨hid, by rw [hid]; exact hid⟩

/-- Witness for C4 (amended) at a concrete plain string. -/
theorem c4_normalize_plain_identity_witness :
    (∀ c ∈ ("tower3" : String).data, c ∈ plainChars) ∧
    normalizeName (normalizeName "tower3") = normalizeName "tower3" :=
  ⟨by decide, (c4_normalize_plain_identity "tower3" (by decide)).2⟩

theorem filterMap_eq_map_of_some {α β : Type} (f : α → Option β) (g : α → β) :
    ∀ l : List α, (∀ x ∈ l, f x = some (g x)) → l.filterMap f = l.map g := by
  intro l
  induction l with
  | nil => intro _; rfl
  | cons x rest ih =>
    intro h
    rw [List.filterMap_cons, h x (List.mem_cons_self _ _), List.map_cons,
      ih (fun y hy => h y (List.mem_cons_of_mem _ hy))]

theorem ensureArrayLngLat_objs (l : List (ℚ × ℚ)) :
    ensureArrayLngLat (l.map (fun c => JsPoint.objLngLat c.1 c.2)) = l := by
  unfold ensureArrayLngLat
  rw [List.filterMap_map]
  exact (filterMap_eq_map_of_some _ id l (fun x _ => rfl)).trans (List.map_id l)

theorem getRouteColor_ne_empty (d : ℕ) : getRouteColor d ≠ "" := by
  unfold getRouteColor
  have hlen7 : routeColors.length = 7 := rfl
  rw [hlen7]
  have h : d % 7 < 7 := Nat.mod_lt _ (by norm_num)
  revert h
  generalize d % 7 = r
  intro h
  interval_cases r <;> decide

theorem normalizeSnapshotPlaces_id (l : List SnapshotPlace)
    (h : ∀ pl ∈ l, pl.lng.isSome ∧ pl.lat.isSome ∧
      pl.posLng = none ∧ pl.posLat = none) :
    normalizeSnapshotPlaces l = l := by
  unfold normalizeSnapshotPlaces
  rw [filterMap_eq_map_of_some _ id l ?_, List.map_id]
  intro pl hpl
  obtain ⟨h1, h2, h3, h4⟩ := h pl hpl
  obtain ⟨a, ha⟩ := Option.isSome_iff_exists.mp h1
  obtain ⟨b, hb⟩ := Option.isSome_iff_exists.mp h2
  simp only [ha, hb, id]
  cases pl with
  | mk name address lng lat posLng posLat dayIndex =>
    simp only [SnapshotPlace.mk.injEq] at ha hb ⊢
    simp_all

theorem normalizeSnapshotPolylines_id (l : List SnapPolyline)
    (h : ∀ pl ∈ l,
      (∃ pts : List (ℚ × ℚ),
        pl.path = pts.map (fun c => JsPoint.objLngLat c.1 c.2) ∧
        2 ≤ pts.length) ∧
      (∃ c, pl.strokeColor = some c ∧ c ≠ "") ∧
      (∃ w, pl.strokeWeight = some w) ∧
      (∃ o, pl.strokeOpacity = some o) ∧
      pl.strokeStyle = some "solid") :
    normalizeSnapshotPolylines l = l := by
  unfold normalizeSnapshotPolylines
  rw [filterMap_eq_map_of_some _ id l ?_, List.map_id]
  intro pl hpl
  obtain ⟨⟨pts, hpath, hlen⟩, ⟨c, hc, hcne⟩, ⟨w, hw⟩, ⟨o, ho⟩, hs⟩ := h pl hpl
  cases pl with
  | mk path strokeColor strokeWeight strokeOpacity strokeStyle dayIndex =>
    simp only at hpath hc hw ho hs
    subst hc hw ho hs hpath
    have hnorm : ensureArrayLngLat
        (pts.map (fun c => JsPoint.objLngLat c.1 c.2)) = pts :=
      ensureArrayLngLat_objs pts
    simp [hnorm, show ¬pts.length < 2 by omega, hcne]

theorem composeDayRoute_wf (outcome : Except Unit (List JsPoint))
    (dayCoords : List (ℚ × ℚ)) (d : ℕ) (h2 : 2 ≤ dayCoords.length) :
    (∃ pts : List (ℚ × ℚ),
      (composeDayRoute outcome dayCoords d).path =
        pts.map (fun c => JsPoint.objLngLat c.1 c.2) ∧ 2 ≤ pts.length) ∧
    (∃ c, (composeDayRoute outcome dayCoords d).strokeColor = some c ∧
      c ≠ "") ∧
    (∃ w, (composeDayRoute outcome dayCoords d).strokeWeight = some w) ∧
    (∃ o, (composeDayRoute outcome dayCoords d).strokeOpacity = some o) ∧
    (composeDayRoute outcome dayCoords d).strokeStyle = some "solid" := by
  have hcol := getRouteColor_ne_empty d
  cases outcome with
  | error e =>
    exact ⟨⟨dayCoords, rfl, h2⟩, ⟨getRouteColor d, rfl, hcol⟩, ⟨2, rfl⟩,
      ⟨3 / 5, rfl⟩, rfl⟩
  | ok pts0 =>
    by_cases hlen : (ensureArrayLngLat pts0).length < 2
    · simp only [composeDayRoute]
      rw [if_pos hlen]
      exact ⟨⟨dayCoords, rfl, h2⟩, ⟨getRouteColor d, rfl, hcol⟩, ⟨2, rfl⟩,
        ⟨3 / 5, rfl⟩, rfl⟩
    · simp only [composeDayRoute]
      rw [if_neg hlen]
      exact ⟨⟨ensureArrayLngLat pts0, rfl, by omega⟩,
        ⟨getRouteColor d, rfl, hcol⟩, ⟨3, rfl⟩, ⟨4 / 5, rfl⟩, rfl⟩

theorem filterMap_congr_forall {α β : Type} {f g : α → Option β}
    (h : ∀ x, f x = g x) : ∀ l : List α, l.filterMap f = l.filterMap g := by
  intro l
  induction l with
  | nil => rfl
  | cons x rest ih => rw [List.filterMap_cons, List.filterMap_cons, h x, ih]

theorem renderSnapshotPlaces_wf (placeCoords : List Place) (keyToDay : JsMap) :
    ∀ pl ∈ renderSnapshotPlaces placeCoords keyToDay,
      pl.lng.isSome ∧ pl.lat.isSome ∧ pl.posLng = none ∧ pl.posLat = none := by
  intro pl hpl
  unfold renderSnapshotPlaces at hpl
  obtain ⟨coord, hc, rfl⟩ := List.mem_map.mp hpl
  have hf := (List.mem_filter.mp hc).2
  simp only [Bool.and_eq_true] at hf
  exact ⟨hf.1, hf.2, rfl, rfl⟩

theorem renderSnapshotPlaces_eq_map (placeCoords : List Place)
    (keyToDay : JsMap)
    (hnum : ∀ p ∈ placeCoords, p.lng.isSome ∧ p.lat.isSome) :
    renderSnapshotPlaces placeCoords keyToDay =
      placeCoords.map (fun coord =>
        { name := coord.name, address := coord.address, lng := coord.lng,
          lat := coord.lat,
          dayIndex := resolveDayIndex keyToDay coord }) := by
  unfold renderSnapshotPlaces
  congr 1
  refine List.filter_eq_self.mpr ?_
  intro p hp
  simp [(hnum p hp).1, (hnum p hp).2]

theorem restore_markers_from_records (placeCoords : List Place)
    (keyToDay : JsMap)
    (hnum : ∀ p ∈ placeCoords, p.lng.isSome ∧ p.lat.isSome) :
    (renderSnapshotPlaces placeCoords keyToDay).filterMap
      (fun pl => addMarkerToMap pl pl.dayIndex) =
    renderMarkerDraws placeCoords keyToDay := by
  rw [renderSnapshotPlaces_eq_map placeCoords keyToDay hnum, List.filterMap_map]
  unfold renderMarkerDraws
  apply filterMap_congr_forall
  intro coord
  rcases coord with ⟨name, addr, lng, lat, day⟩
  cases lng <;> cases lat <;> rfl

theorem renderMarkerDraws_length (placeCoords : List Place) (keyToDay : JsMap)
    (hnum : ∀ p ∈ placeCoords, p.lng.isSome ∧ p.lat.isSome) :
    (renderMarkerDraws placeCoords keyToDay).length = placeCoords.length := by
  unfold renderMarkerDraws
  rw [filterMap_eq_map_of_some _
    (fun coord => (⟨coord.lng.getD 0, coord.lat.getD 0,
      markerStyleFor (resolveDayIndex keyToDay coord)⟩ : MarkerDraw))
    placeCoords ?_]
  · exact List.length_map _ _
  · intro coord hc
    obtain ⟨a, ha⟩ := Option.isSome_iff_exists.mp (hnum coord hc).1
    obtain ⟨b, hb⟩ := Option.isSome_iff_exists.mp (hnum coord hc).2
    simp [ha, hb]

theorem routePolylines_wf
    (days : List (Except Unit (List JsPoint) × List (ℚ × ℚ) × ℕ))
    (hday : ∀ dcase ∈ days, 2 ≤ dcase.2.1.length) :
    ∀ pl ∈ days.map (fun dcase => composeDayRoute dcase.1 dcase.2.1 dcase.2.2),
      (∃ pts : List (ℚ × ℚ),
        pl.path = pts.map (fun c => JsPoint.objLngLat c.1 c.2) ∧
        2 ≤ pts.length) ∧
      (∃ c, pl.strokeColor = some c ∧ c ≠ "") ∧
      (∃ w, pl.strokeWeight = some w) ∧
      (∃ o, pl.strokeOpacity = some o) ∧
      pl.strokeStyle = some "solid" := by
  intro pl hpl
  obtain ⟨dcase, hd, rfl⟩ := List.mem_map.mp hpl
  exact composeDayRoute_wf _ _ _ (hday dcase hd)

theorem restore_polyline_some {pl : SnapPolyline}
    (hwf : (∃ pts : List (ℚ × ℚ),
        pl.path = pts.map (fun c => JsPoint.objLngLat c.1 c.2) ∧
        2 ≤ pts.length) ∧
      (∃ c, pl.strokeColor = some c ∧ c ≠ "") ∧
      (∃ w, pl.strokeWeight = some w) ∧
      (∃ o, pl.strokeOpacity = some o) ∧
      pl.strokeStyle = some "solid") :
    addPolylineToMap pl.path
      (pl.strokeColor.getD
        (match pl.dayIndex with
         | some d => getRouteColor d
         | none => "#3388ff"))
      (pl.strokeWeight.getD 3) (pl.strokeOpacity.getD (4 / 5))
      (pl.strokeStyle.getD "solid") = some (polylineDrawOfSnap pl) := by
  obtain ⟨⟨pts, hpath, hlen⟩, ⟨c, hc, _⟩, ⟨w, hw⟩, ⟨o, ho⟩, hs⟩ := hwf
  have hnorm : ensureArrayLngLat pl.path = pts := by
    rw [hpath]
    exact ensureArrayLngLat_objs pts
  unfold addPolylineToMap polylineDrawOfSnap
  simp [hnorm, show ¬pts.length < 2 by omega, hc, hw, ho, hs]

/-- C8: restoring the persisted snapshot of a completed render — same
provider, unchanged signature — redraws exactly the same markers (same
coordinates and the same day-dependent marker styles) and exactly the same
polylines (same paths and stroke attributes) as the original render, so in
particular the marker count equals the geocoded-place count and the polyline
count equals the routed-day count, and the persisted signature is the
render's input signature. -/
theorem c8_snapshot_roundtrip (placeCoords : List Place) (keyToDay : JsMap)
    (days : List (Except Unit (List JsPoint) × List (ℚ × ℚ) × ℕ))
    (provider sig : String) (viewport : List JsPoint)
    (hnum : ∀ p ∈ placeCoords, p.lng.isSome ∧ p.lat.isSome)
    (hday : ∀ dcase ∈ days, 2 ≤ dcase.2.1.length)
    (hprov : provider ≠ "") :
    restoreSnapshotDraws provider
      (persistSnapshot provider sig
        { provider := provider
          places := renderSnapshotPlaces placeCoords keyToDay
          polylines := days.map (fun dcase =>
            composeDayRoute dcase.1 dcase.2.1 dcase.2.2)
          viewportCoords := viewport
          signature := sig }) =
      some (renderMarkerDraws placeCoords keyToDay,
        (days.map (fun dcase =>
          composeDayRoute dcase.1 dcase.2.1 dcase.2.2)).map
            polylineDrawOfSnap) ∧
    (renderMarkerDraws placeCoords keyToDay).length = placeCoords.length ∧
    ((days.map (fun dcase =>
      composeDayRoute dcase.1 dcase.2.1 dcase.2.2)).map
        polylineDrawOfSnap).length = days.length ∧
    (persistSnapshot provider sig
      { provider := provider
        places := renderSnapshotPlaces placeCoords keyToDay
        polylines := days.map (fun dcase =>
          composeDayRoute dcase.1 dcase.2.1 dcase.2.2)
        viewportCoords := viewport
        signature := sig }).signature = sig := by
  have hpolywf := routePolylines_wf days hday
  have hpersist_places :
      normalizeSnapshotPlaces (renderSnapshotPlaces placeCoords keyToDay) =
        renderSnapshotPlaces placeCoords keyToDay :=
    normalizeSnapshotPlaces_id _ (renderSnapshotPlaces_wf placeCoords keyToDay)
  have hpersist_polys :
      normalizeSnapshotPolylines (days.map (fun dcase =>
        composeDayRoute dcase.1 dcase.2.1 dcase.2.2)) =
      days.map (fun dcase => composeDayRoute dcase.1 dcase.2.1 dcase.2.2) :=
    normalizeSnapshotPolylines_id _ hpolywf
  have hP1 : (persistSnapshot provider sig
      { provider := provider
        places := renderSnapshotPlaces placeCoords keyToDay
        polylines := days.map (fun dcase =>
          composeDayRoute dcase.1 dcase.2.1 dcase.2.2)
        viewportCoords := viewport
        signature := sig }).provider = provider := by
    unfold persistSnapshot
    simp [hprov]
  have hP2 : (persistSnapshot provider sig
      { provider := provider
        places := renderSnapshotPlaces placeCoords keyToDay
        polylines := days.map (fun dcase =>
          composeDayRoute dcase.1 dcase.2.1 dcase.2.2)
        viewportCoords := viewport
        signature := sig }).places =
      renderSnapshotPlaces placeCoords keyToDay := by
    unfold persistSnapshot
    simpa using hpersist_places
  have hP3 : (persistSnapshot provider sig
      { provider := provider
        places := renderSnapshotPlaces placeCoords keyToDay
        polylines := days.map (fun dcase =>
          composeDayRoute dcase.1 dcase.2.1 dcase.2.2)
        viewportCoords := viewport
        signature := sig }).polylines =
      days.map (fun dcase => composeDayRoute dcase.1 dcase.2.1 dcase.2.2) := by
    unfold persistSnapshot
    simpa using hpersist_polys
  refine ⟨?_, renderMarkerDraws_length _ _ hnum,
    by rw [List.length_map, List.length_map], by unfold persistSnapshot; rfl⟩
  simp only [restoreSnapshotDraws]
  rw [hP1, hP2, hP3, if_neg (by simp), hpersist_places, hpersist_polys,
    restore_markers_from_records placeCoords keyToDay hnum,
    filterMap_eq_map_of_some _ polylineDrawOfSnap _
      (fun pl hpl => restore_polyline_some (hpolywf pl hpl))]

/-- Witness for C8 at a one-marker, one-day concrete render. -/
theorem c8_snapshot_roundtrip_witness :
    (∀ p ∈ [({ name := "a", lng := some 1, lat := some 2 } : Place)],
      p.lng.isSome ∧ p.lat.isSome) ∧
    (∀ dcase ∈ [((Except.error () : Except Unit (List JsPoint)),
        [((0 : ℚ), (0 : ℚ)), (1, 1)], 0)], 2 ≤ dcase.2.1.length) ∧
    ("osm" : String) ≠ "" ∧
    (renderMarkerDraws [{ name := "a", lng := some 1, lat := some 2 }] []).length
      = 1 := by
  refine ⟨by decide, by decide, by decide, ?_⟩
  exact (c8_snapshot_roundtrip [{ name := "a", lng := some 1, lat := some 2 }]
    [] [((Except.error () : Except Unit (List JsPoint)),
      [((0 : ℚ), (0 : ℚ)), (1, 1)], 0)] "osm" "sig" []
    (by decide) (by decide) (by decide)).2.1

end MapViewSpec
